import Mathlib

/-
Verification development for the `cogpilot/cognitive-architecture` repository.

The Python sources are shallowly embedded: dataclasses become structures,
Python dicts become association lists (`List (key × value)`), JSON values
become the inductive `Json`, floats in the particle-swarm demo are modelled
as rationals, and SHA-256 is threaded as an explicit hash-function parameter
(the development never relies on any property of the hash beyond it being a
function).  Stateful methods are embedded as explicit state-passing
functions.
-/

namespace CogArch

/-- JSON values as produced by `json.loads` / consumed by `json.dumps`.
Numbers are modelled as integers (no claim in this development depends on
float-valued JSON numbers). -/
inductive Json where
  | null : Json
  | bool (b : Bool) : Json
  | num (n : Int) : Json
  | str (s : String) : Json
  | arr (xs : List Json) : Json
  | obj (kvs : List (String × Json)) : Json
deriving Inhabited

/-- `d.get(k)` on a Python dict modelled as an association list. -/
def dictGet (kvs : List (String × Json)) (k : String) : Option Json :=
  kvs.lookup k

lemma lookup_some_imp_mem {α β : Type} [BEq α] [LawfulBEq α] (l : List (α × β)) (k : α) (v : β)
    (h : l.lookup k = some v) : k ∈ l.map Prod.fst := by
  induction l with
  | nil => simp [List.lookup] at h
  | cons p ps ih =>
    rw [List.lookup] at h
    by_cases hk : k == p.1
    · have : k = p.1 := eq_of_beq hk
      simp [this]
    · simp only [hk, Bool.false_eq_true, if_false] at h
      simp only [List.map_cons, List.mem_cons]
      exact Or.inr (ih h)

/-! ## `cognitive-ecology/reproducible_ai_builder.py` : data model -/

/-- `BuildComponent` dataclass (reproducible_ai_builder.py). -/
structure BuildComponent where
  name : String
  version : String
  source_hash : String
  build_inputs : List String
  build_outputs : List String
  build_system : String
  configuration : List (String × Json)
  environment_variables : List (String × String)

/-- `BuildManifest` dataclass (reproducible_ai_builder.py). -/
structure BuildManifest where
  manifest_id : String
  target_name : String
  target_version : String
  build_timestamp : String
  components : List BuildComponent
  dependency_graph : List (String × List String)
  build_environment : List (String × Json)
  verification_checksums : List (String × String)

/-- Result dictionary of `_build_component`. -/
structure ComponentResult where
  success : Bool
  build_time : ℚ
  output_hash : String
  artifacts : List String

/-- Result dictionary of `_verify_build_outputs`. -/
structure VerificationResults where
  all_verified : Bool
  verification_details : List (String × Json)
  failed_verifications : List String

/-- The `build_results` dictionary of `execute_reproducible_build`.
`verification_results` starts out as the empty dict `{}` and is later
replaced by the dictionary returned by `_verify_build_outputs`; the initial
empty dict is modelled as `none`. -/
structure BuildResults where
  manifest_id : String
  build_status : String
  component_results : List (String × ComponentResult)
  verification_results : Option VerificationResults
  build_artifacts : List String
  build_log : List String

/-- `_setup_build_environment`: returns the constant dictionary
`{"environment_ready": True, "env_id": "build_env_001"}`. -/
def _setup_build_environment (_env_spec : List (String × Json)) : List (String × Json) :=
  [("environment_ready", Json.bool true), ("env_id", Json.str "build_env_001")]

/-- `_build_component`: returns the constant success dictionary. -/
def _build_component (component : BuildComponent) (_build_env : List (String × Json)) :
    ComponentResult :=
  { success := true
    build_time := 85 / 2
    output_hash := "abc123def456"
    artifacts := component.build_outputs }

/-- `_verify_build_outputs`: returns the constant all-verified dictionary. -/
def _verify_build_outputs (_manifest : BuildManifest) : VerificationResults :=
  { all_verified := true
    verification_details := []
    failed_verifications := [] }

/-- The component loop of `execute_reproducible_build`: builds components in
order, accumulating `component_results`; returns `false` as soon as some
component result has `success = False` (the `"failed"` early return). -/
def buildComponentsLoop (build_env : List (String × Json)) :
    List BuildComponent → List (String × ComponentResult) →
    List (String × ComponentResult) × Bool
  | [], acc => (acc, true)
  | c :: cs, acc =>
    let result := _build_component c build_env
    let acc1 := acc ++ [(c.name, result)]
    if result.success then buildComponentsLoop build_env cs acc1 else (acc1, false)

/-- `execute_reproducible_build` (lines 247-285).  In the embedding no
sub-step can raise, so the `except Exception` arm ("error" status) is
unreachable and is not represented. -/
def execute_reproducible_build (manifest : BuildManifest) : BuildResults :=
  let build_env := _setup_build_environment manifest.build_environment
  let loopOut := buildComponentsLoop build_env manifest.components []
  if loopOut.2 then
    let verification_results := _verify_build_outputs manifest
    { manifest_id := manifest.manifest_id
      build_status := if verification_results.all_verified then "success"
                      else "verification_failed"
      component_results := loopOut.1
      verification_results := some verification_results
      build_artifacts := []
      build_log := [] }
  else
    { manifest_id := manifest.manifest_id
      build_status := "failed"
      component_results := loopOut.1
      verification_results := none
      build_artifacts := []
      build_log := [] }

lemma buildComponentsLoop_snd (build_env : List (String × Json)) :
    ∀ (cs : List BuildComponent) (acc : List (String × ComponentResult)),
      (buildComponentsLoop build_env cs acc).2 = true := by
  intro cs
  induction cs with
  | nil => intro acc; rfl
  | cons c cs ih =>
    intro acc
    simp only [buildComponentsLoop, _build_component]
    exact ih _

/-- C1.  Every reproducible build "succeeds": `_build_component` returns
`success = True` for every component and build environment,
`_verify_build_outputs` returns `all_verified = True` for every manifest,
and consequently `execute_reproducible_build` (which raises no exception in
the embedding) always reports `build_status = "success"`; the `"failed"`
and `"verification_failed"` branches are unreachable. -/
theorem execute_reproducible_build_always_success :
    (∀ c env, (_build_component c env).success = true) ∧
    (∀ m, (_verify_build_outputs m).all_verified = true) ∧
    (∀ manifest : BuildManifest,
      (execute_reproducible_build manifest).build_status = "success") := by
  refine ⟨fun c env => rfl, fun m => rfl, fun manifest => ?_⟩
  simp only [execute_reproducible_build, buildComponentsLoop_snd, _verify_build_outputs,
    if_true]

/-! ## `blueprints/guix_builder.py` : data model and `validate_reproducibility` -/

/-- `PackageSpec` dataclass (guix_builder.py). -/
structure PackageSpec where
  name : String
  version : String
  source : String
  build_system : String
  dependencies : List String
  build_args : List (String × Json)
  patches : List String
  environment : List (String × String)
  checksum : Option String

/-- `EnvironmentSpec` dataclass (guix_builder.py). -/
structure EnvironmentSpec where
  name : String
  description : String
  base_system : String
  packages : List PackageSpec
  environment_vars : List (String × String)
  services : List Json
  volumes : List String
  network_config : List (String × Json)
  ai_specific : List (String × Json)

/-- `BuildBlueprint` dataclass (guix_builder.py). -/
structure BuildBlueprint where
  name : String
  version : String
  created_at : String
  environment : EnvironmentSpec
  build_instructions : List String
  test_suite : List String
  benchmark_suite : List String
  deployment_config : List (String × Json)
  metadata : List (String × Json)
  hash_manifest : List (String × String)

/-- Result dictionary of `validate_reproducibility`. -/
structure ValidationResults where
  has_version_pinning : Bool
  has_checksums : Bool
  has_hash_manifest : Bool
  build_deterministic : Bool
  dependencies_resolved : Bool

/-- Python truthiness test `not package.version or package.version == "latest"`. -/
def versionNotPinned (p : PackageSpec) : Bool :=
  p.version = "" ∨ p.version = "latest"

/-- Python truthiness test `not package.checksum`: the checksum is `None`
or the empty string. -/
def checksumMissing (p : PackageSpec) : Bool :=
  p.checksum = none ∨ p.checksum = some ""

/-- `validate_reproducibility` (guix_builder.py lines 431-452): starts from
the all-`True` dictionary (with `has_hash_manifest = bool(hash_manifest)`),
then two loops lower `has_version_pinning` / `has_checksums` to `False`. -/
def validate_reproducibility (blueprint : BuildBlueprint) : ValidationResults :=
  let v0 : ValidationResults :=
    { has_version_pinning := true
      has_checksums := true
      has_hash_manifest := !blueprint.hash_manifest.isEmpty
      build_deterministic := true
      dependencies_resolved := true }
  let v1 := blueprint.environment.packages.foldl
    (fun acc p => if versionNotPinned p then { acc with has_version_pinning := false } else acc) v0
  let v2 := blueprint.environment.packages.foldl
    (fun acc p => if checksumMissing p then { acc with has_checksums := false } else acc) v1
  v2

lemma validate_fold_version (ps : List PackageSpec) :
    ∀ acc : ValidationResults,
      (ps.foldl (fun acc p =>
          if versionNotPinned p then { acc with has_version_pinning := false } else acc) acc)
        = { acc with has_version_pinning := acc.has_version_pinning && ps.all fun p => !versionNotPinned p } := by
  induction ps with
  | nil => intro acc; simp
  | cons p ps ih =>
    intro acc
    simp only [List.foldl_cons, List.all_cons]
    by_cases h : versionNotPinned p
    · rw [if_pos h, ih]
      simp [h]
    · rw [if_neg h, ih]
      simp [h]

lemma validate_fold_checksum (ps : List PackageSpec) :
    ∀ acc : ValidationResults,
      (ps.foldl (fun acc p =>
          if checksumMissing p then { acc with has_checksums := false } else acc) acc)
        = { acc with has_checksums := acc.has_checksums && ps.all fun p => !checksumMissing p } := by
  induction ps with
  | nil => intro acc; simp
  | cons p ps ih =>
    intro acc
    simp only [List.foldl_cons, List.all_cons]
    by_cases h : checksumMissing p
    · rw [if_pos h, ih]
      simp [h]
    · rw [if_neg h, ih]
      simp [h]

/-- C6.  `validate_reproducibility`: `has_version_pinning` is `False` iff
some package's version is empty or `"latest"`; `has_checksums` is `False`
iff some package's checksum is unset (Python-falsy); `has_hash_manifest` is
`True` iff the blueprint's `hash_manifest` is non-empty; and
`build_deterministic` and `dependencies_resolved` are `True` for every
input whatsoever. -/
theorem validate_reproducibility_spec (blueprint : BuildBlueprint) :
    ((validate_reproducibility blueprint).has_version_pinning = false ↔
      ∃ p ∈ blueprint.environment.packages, versionNotPinned p) ∧
    ((validate_reproducibility blueprint).has_checksums = false ↔
      ∃ p ∈ blueprint.environment.packages, checksumMissing p) ∧
    ((validate_reproducibility blueprint).has_hash_manifest = true ↔
      blueprint.hash_manifest ≠ []) ∧
    (validate_reproducibility blueprint).build_deterministic = true ∧
    (validate_reproducibility blueprint).dependencies_resolved = true := by
  simp only [validate_reproducibility, validate_fold_version, validate_fold_checksum]
  refine ⟨?_, ?_, by simp [List.isEmpty_iff], trivial, trivial⟩
  · simp [List.all_eq_false]
  · simp [List.all_eq_false]


/-! ## Decimal rendering (Python `str(int)` / f-string formatting of ints) -/

/-- The decimal digit character for `n % 10`. -/
def digitChar (n : Nat) : Char := Char.ofNat (48 + n % 10)

/-- Decimal representation of a natural number, most significant digit
first (as produced by Python `str`/f-strings). -/
def natToDec (n : Nat) : List Char :=
  if _h : n < 10 then [digitChar n]
  else natToDec (n / 10) ++ [digitChar (n % 10)]
  decreasing_by exact Nat.div_lt_self (by omega) (by omega)

/-- Decimal representation of an integer. -/
def intToDec (n : Int) : List Char :=
  if n < 0 then '-' :: natToDec (-n).toNat else natToDec n.toNat

/-- Decimal representation as a `String`. -/
def natToStr (n : Nat) : String := String.mk (natToDec n)

/-! ## Python `str()` / `repr()` of values returned by `json.loads` -/

/-- Hex digit characters used by Python `\x` escapes. -/
def hexDigitChar (n : Nat) : Char :=
  "0123456789abcdef".toList.getD (n % 16) '0'

/-- Python `repr` escaping of one character of a string, where `q` is the
chosen quote character.  Printable characters are kept; quote, backslash
and control characters are escaped (non-ASCII characters are modelled as
printable and kept as-is). -/
def reprEscChar (q : Char) (c : Char) : List Char :=
  if c = '\\' then ['\\', '\\']
  else if c = q then ['\\', q]
  else if c = '\n' then ['\\', 'n']
  else if c = '\r' then ['\\', 'r']
  else if c = '\t' then ['\\', 't']
  else if c.toNat < 32 ∨ c.toNat = 127 then
    ['\\', 'x', hexDigitChar (c.toNat / 16), hexDigitChar (c.toNat % 16)]
  else [c]

/-- Python `repr` of a string: single-quoted, unless the string contains a
single quote and no double quote. -/
def reprStr (s : List Char) : List Char :=
  let q : Char := if s.contains '\'' ∧ ¬ s.contains '"' then '"' else '\''
  q :: (s.flatMap (reprEscChar q)) ++ [q]

mutual

/-- Python `repr` of a value produced by `json.loads` (used inside
containers by `str`). -/
def pyRepr : Json → List Char
  | Json.null => "None".toList
  | Json.bool true => "True".toList
  | Json.bool false => "False".toList
  | Json.num n => intToDec n
  | Json.str s => reprStr s.toList
  | Json.arr xs => '[' :: pyReprList xs ++ [']']
  | Json.obj kvs => Char.ofNat 123 :: pyReprObj kvs ++ [Char.ofNat 125]

/-- `repr` of list elements, joined by `", "`. -/
def pyReprList : List Json → List Char
  | [] => []
  | [x] => pyRepr x
  | x :: y :: rest => pyRepr x ++ ", ".toList ++ pyReprList (y :: rest)

/-- `repr` of dict items `key: value`, joined by `", "`. -/
def pyReprObj : List (String × Json) → List Char
  | [] => []
  | [(k, v)] => reprStr k.toList ++ ": ".toList ++ pyRepr v
  | (k, v) :: q :: rest =>
    reprStr k.toList ++ ": ".toList ++ pyRepr v ++ ", ".toList ++ pyReprObj (q :: rest)

end

/-- Python `str()` of a value produced by `json.loads` (as used by
f-string interpolation): a string is rendered without quotes, every other
value as its `repr`. -/
def pyStr : Json → List Char
  | Json.str s => s.toList
  | j => pyRepr j

/-! ## `protocols/mcp/server.py` : MCPServer -/

/-- A study session dictionary created by `handle_study_request`. -/
structure StudySession where
  client_id : String
  study_type : Json
  topic : Json
  start_time : String
  status : String

/-- The mutable state of `MCPServer`: `clients` (ids of connected
websockets; the socket objects themselves carry no further state used by
`process_message`) and `study_sessions`. -/
structure MCPState where
  clients : List String
  study_sessions : List (String × StudySession)

/-- Python dict insertion `m[k] = v`: updates the value in place when the
key is present, appends otherwise (dict keys are unique, so replacing the
first occurrence is the dict semantics). -/
def dictInsert {α : Type} (k : String) (v : α) : List (String × α) → List (String × α)
  | [] => [(k, v)]
  | p :: rest => if p.1 = k then (k, v) :: rest else p :: dictInsert k v rest

/-- Python `del m[k]`: removes the entry for `k` (dict keys are unique, so
removing every occurrence is the dict semantics). -/
def dictRemove {α : Type} (k : String) (m : List (String × α)) : List (String × α) :=
  m.filter (fun p => p.1 ≠ k)

/-- Python `k in m` on a dict. -/
def dictContains {α : Type} (m : List (String × α)) (k : String) : Bool :=
  m.any (fun p => p.1 = k)

lemma lookup_dictInsert {α : Type} (k : String) (v : α) (m : List (String × α)) (x : String) :
    (dictInsert k v m).lookup x = if x = k then some v else m.lookup x := by
  induction m with
  | nil =>
    by_cases h : x = k
    · subst h; simp [dictInsert, List.lookup]
    · have hb : (x == k) = false := beq_eq_false_iff_ne.mpr h
      simp [dictInsert, List.lookup, hb, h]
  | cons p rest ih =>
    by_cases hp : p.1 = k
    · by_cases hx : x = k
      · subst hx
        simp [dictInsert, hp, List.lookup]
      · have hb : (x == k) = false := beq_eq_false_iff_ne.mpr hx
        have hbp : (x == p.1) = false := beq_eq_false_iff_ne.mpr (by rw [hp]; exact hx)
        simp [dictInsert, hp, List.lookup, hb, hbp, hx]
    · by_cases hx : x = p.1
      · have hb : (x == k) = false := beq_eq_false_iff_ne.mpr (by rw [hx]; exact hp)
        have hbp : (x == p.1) = true := beq_iff_eq.mpr hx
        have hxk : ¬ x = k := by rw [hx]; exact hp
        simp [dictInsert, hp, List.lookup, hb, hbp, hxk]
      · have hbp : (x == p.1) = false := beq_eq_false_iff_ne.mpr hx
        simp [dictInsert, hp, List.lookup, hbp, ih]

lemma lookup_dictRemove {α : Type} (k : String) (m : List (String × α)) (x : String) :
    (dictRemove k m).lookup x = if x = k then none else m.lookup x := by
  induction m with
  | nil => by_cases h : x = k <;> simp [dictRemove, List.lookup, h]
  | cons p rest ih =>
    by_cases hp : p.1 = k
    · have hstep : dictRemove k (p :: rest) = dictRemove k rest := by
        simp [dictRemove, List.filter, hp]
      by_cases hx : x = k
      · rw [hstep, ih, if_pos hx, if_pos hx]
      · have hbp : (x == p.1) = false := beq_eq_false_iff_ne.mpr (by rw [hp]; exact hx)
        rw [hstep, ih, if_neg hx, if_neg hx]
        simp [List.lookup, hbp]
    · have hstep : dictRemove k (p :: rest) = p :: dictRemove k rest := by
        simp [dictRemove, List.filter, hp]
      by_cases hx : x = p.1
      · have hxk : ¬ x = k := by rw [hx]; exact hp
        subst hx
        simp [hstep, List.lookup, hxk]
      · have hbp : (x == p.1) = false := beq_eq_false_iff_ne.mpr hx
        simp [hstep, List.lookup, hbp, ih]

lemma dictContains_iff_lookup_isSome {α : Type} (m : List (String × α)) (k : String) :
    dictContains m k = true ↔ (m.lookup k).isSome := by
  induction m with
  | nil => simp [dictContains, List.lookup]
  | cons p rest ih =>
    by_cases hp : p.1 = k
    · have hb : (k == p.1) = true := beq_iff_eq.mpr hp.symm
      simp [dictContains, List.lookup, hp, hb]
    · have hb : (k == p.1) = false := beq_eq_false_iff_ne.mpr (fun h => hp h.symm)
      simp only [dictContains, List.any_cons, List.lookup, hb, decide_eq_true_eq, hp, false_or]
      exact ih

/-- The error-response dictionary of `send_error`. -/
def errorResponse (error_message : String) (now : String) : Json :=
  Json.obj [("type", Json.str "error"), ("error", Json.str error_message),
            ("timestamp", Json.str now)]

/-- `generate_ml_study_content` (mcp/server.py lines 181-202). -/
def generate_ml_study_content (topic : Json) : Json :=
  let fallback := Json.obj [
    ("concept", Json.str ("Study topic: " ++ String.mk (pyStr topic))),
    ("description", Json.str "Custom study content"),
    ("note", Json.str "Content generation for this topic is in development")]
  match topic with
  | Json.str s =>
    if s = "hello_world" then Json.obj [
      ("concept", Json.str "Introduction to Machine Learning"),
      ("description", Json.str "Basic ML concepts and PyTorch introduction"),
      ("example_code", Json.str "model = nn.Linear(10, 1)\noutput = model(torch.randn(1, 10))"),
      ("key_points", Json.arr [Json.str "Tensors", Json.str "Neural Networks", Json.str "Forward Pass"])]
    else if s = "neural_networks" then Json.obj [
      ("concept", Json.str "Neural Network Architectures"),
      ("description", Json.str "Understanding different neural network types"),
      ("example_code", Json.str "class MLP(nn.Module):\n    def __init__(self):\n        super().__init__()"),
      ("key_points", Json.arr [Json.str "Layers", Json.str "Activation Functions", Json.str "Backpropagation"])]
    else fallback
  | _ => fallback

/-- `generate_nn_study_content` (mcp/server.py lines 204-211). -/
def generate_nn_study_content (topic : Json) : Json :=
  Json.obj [
    ("architecture_type", topic),
    ("description", Json.str ("Neural network architecture study for " ++ String.mk (pyStr topic))),
    ("implementation_notes", Json.str "PyTorch-based implementation examples"),
    ("research_papers", Json.arr [Json.str "Attention Is All You Need", Json.str "ResNet", Json.str "BERT"])]

/-- `generate_cognitive_architecture_content` (mcp/server.py lines 213-220). -/
def generate_cognitive_architecture_content (topic : Json) : Json :=
  Json.obj [
    ("cognitive_pattern", topic),
    ("description", Json.str "Cognitive architecture design patterns"),
    ("implementation", Json.str "GitHub Enterprise cognitive ecology"),
    ("neural_transport_channels", Json.arr [Json.str "cogpilot", Json.str "cogcities", Json.str "cosmo-enterprise"])]

/-- `analyze_activation_landscape` (constant dictionary). -/
def analyze_activation_landscape (_parameters : Json) : Json :=
  Json.obj [
    ("current_activations", Json.obj [
      ("ml_architecture", Json.num 87), ("protocol_design", Json.num 92),
      ("neural_transport", Json.num 74)]),
    ("trending_patterns", Json.arr [Json.str "cognitive_cities", Json.str "enterprise_ai"]),
    ("optimization_suggestions", Json.arr [Json.str "increase_neural_bandwidth", Json.str "distribute_processing"])]

/-- `analyze_memory_patterns` (constant dictionary). -/
def analyze_memory_patterns (_parameters : Json) : Json :=
  Json.obj [
    ("active_patterns", Json.num 15),
    ("average_salience", Json.num 78),
    ("memory_utilization", Json.str "moderate"),
    ("embedding_dimensions", Json.num 768),
    ("recent_encodings", Json.arr [Json.str "particle_swarm_optimization", Json.str "neural_transport"])]

/-- `check_neural_transport_status` (constant dictionary). -/
def check_neural_transport_status (_parameters : Json) : Json :=
  Json.obj [
    ("active_channels", Json.num 3),
    ("total_bandwidth", Json.str "high"),
    ("channel_health", Json.obj [
      ("cogpilot_to_cogcities", Json.str "excellent"),
      ("cogpilot_to_enterprise", Json.str "good"),
      ("inter_org_sync", Json.str "optimal")]),
    ("transport_volume_24h", Json.num 1247)]

/-- `get_protocol_status` (reads the two state dictionaries). -/
def get_protocol_status (st : MCPState) : Json :=
  Json.obj [
    ("server_status", Json.str "running"),
    ("connected_clients", Json.num st.clients.length),
    ("active_sessions", Json.num st.study_sessions.length),
    ("uptime", Json.str "simulated_uptime"),
    ("protocol_version", Json.str "cognitive_architecture_v1.0")]

/-- `get_protocol_capabilities` (constant dictionary). -/
def get_protocol_capabilities : Json :=
  Json.obj [
    ("supported_message_types", Json.arr [
      Json.str "study_request", Json.str "cognitive_architecture_query",
      Json.str "neural_transport", Json.str "protocol_introspection"]),
    ("study_types", Json.arr [Json.str "ml_concepts", Json.str "nn_architectures", Json.str "cognitive_architecture"]),
    ("query_types", Json.arr [Json.str "activation_landscape", Json.str "memory_patterns", Json.str "neural_transport_status"]),
    ("transport_features", Json.arr [Json.str "high_bandwidth", Json.str "semantic_routing", Json.str "context_preservation"])]

/-- `get_protocol_performance` (constant dictionary; the original float
metrics are represented as scaled integers, which no claim depends on). -/
def get_protocol_performance : Json :=
  Json.obj [
    ("average_response_time_ms", Json.num 25),
    ("message_throughput", Json.str "high"),
    ("error_rate", Json.num 2),
    ("bandwidth_efficiency", Json.num 91),
    ("client_satisfaction", Json.num 96)]

/-- `handle_study_request` (mcp/server.py lines 83-115): records a new
study session and returns a templated study response. -/
def handle_study_request (st : MCPState) (client_id : String) (data : List (String × Json))
    (now : String) : MCPState × Json :=
  let study_type := (dictGet data "study_type").getD (Json.str "unknown")
  let topic := (dictGet data "topic").getD (Json.str "general")
  let session_id := "session_" ++ natToStr st.study_sessions.length
  let session : StudySession :=
    { client_id := client_id, study_type := study_type, topic := topic,
      start_time := now, status := "active" }
  let st1 : MCPState :=
    { st with study_sessions := dictInsert session_id session st.study_sessions }
  let content :=
    match study_type with
    | Json.str s =>
      if s = "ml_concepts" then generate_ml_study_content topic
      else if s = "nn_architectures" then generate_nn_study_content topic
      else if s = "cognitive_architecture" then generate_cognitive_architecture_content topic
      else Json.obj [("message", Json.str ("Study type '" ++ String.mk (pyStr study_type) ++ "' not yet implemented"))]
    | _ => Json.obj [("message", Json.str ("Study type '" ++ String.mk (pyStr study_type) ++ "' not yet implemented"))]
  (st1, Json.obj [
    ("type", Json.str "study_response"),
    ("session_id", Json.str session_id),
    ("study_type", study_type),
    ("topic", topic),
    ("content", content),
    ("timestamp", Json.str now)])

/-- `handle_cognitive_query` (mcp/server.py lines 117-136). -/
def handle_cognitive_query (st : MCPState) (_client_id : String) (data : List (String × Json))
    (now : String) : MCPState × Json :=
  let query_type := (dictGet data "query_type").getD (Json.str "general")
  let parameters := (dictGet data "parameters").getD (Json.obj [])
  let result :=
    match query_type with
    | Json.str s =>
      if s = "activation_landscape" then analyze_activation_landscape parameters
      else if s = "memory_patterns" then analyze_memory_patterns parameters
      else if s = "neural_transport_status" then check_neural_transport_status parameters
      else Json.obj [("error", Json.str ("Unknown query type: " ++ String.mk (pyStr query_type)))]
    | _ => Json.obj [("error", Json.str ("Unknown query type: " ++ String.mk (pyStr query_type)))]
  (st, Json.obj [
    ("type", Json.str "cognitive_query_response"),
    ("query_type", query_type),
    ("result", result),
    ("timestamp", Json.str now)])

/-- `handle_neural_transport` (mcp/server.py lines 138-159). -/
def handle_neural_transport (st : MCPState) (_client_id : String) (data : List (String × Json))
    (now : String) : MCPState × Json :=
  let source := (dictGet data "source").getD (Json.str "unknown")
  let target := (dictGet data "target").getD (Json.str "unknown")
  let payload := (dictGet data "payload").getD (Json.obj [])
  let transport_result := Json.obj [
    ("transport_id", Json.str ("transport_" ++ natToStr st.study_sessions.length)),
    ("source", source),
    ("target", target),
    ("status", Json.str "transmitted"),
    ("bandwidth_utilization", Json.num 85),
    ("latency_ms", Json.num 42),
    ("payload_size", Json.num (pyStr payload).length)]
  (st, Json.obj [
    ("type", Json.str "neural_transport_response"),
    ("result", transport_result),
    ("timestamp", Json.str now)])

/-- `handle_protocol_introspection` (mcp/server.py lines 161-179). -/
def handle_protocol_introspection (st : MCPState) (_client_id : String)
    (data : List (String × Json)) (now : String) : MCPState × Json :=
  let introspection_type := (dictGet data "introspection_type").getD (Json.str "status")
  let result :=
    match introspection_type with
    | Json.str s =>
      if s = "status" then get_protocol_status st
      else if s = "capabilities" then get_protocol_capabilities
      else if s = "performance" then get_protocol_performance
      else Json.obj [("error", Json.str ("Unknown introspection type: " ++ String.mk (pyStr introspection_type)))]
    | _ => Json.obj [("error", Json.str ("Unknown introspection type: " ++ String.mk (pyStr introspection_type)))]
  (st, Json.obj [
    ("type", Json.str "protocol_introspection_response"),
    ("introspection_type", introspection_type),
    ("result", result),
    ("timestamp", Json.str now)])

/-- Python type name of a `json.loads` value (used by the `AttributeError`
message raised when `.get` is called on a non-dict). -/
def pyTypeName : Json → String
  | Json.null => "NoneType"
  | Json.bool _ => "bool"
  | Json.num _ => "int"
  | Json.str _ => "str"
  | Json.arr _ => "list"
  | Json.obj _ => "dict"

/-- `process_message` (mcp/server.py lines 51-81).  `json.loads` is
modelled by its outcome (`Except.error` is a `json.JSONDecodeError`); the
returned pair is the updated server state together with the response
dictionary handed to `send_response` / `send_error`.  A non-dict top-level
value makes `data.get` raise `AttributeError`, which the broad
`except Exception` turns into an error response via `send_error(str(e))`. -/
def process_message (st : MCPState) (client_id : String) (parsed : Except Unit Json)
    (now : String) : MCPState × Json :=
  match parsed with
  | Except.error _ => (st, errorResponse "Invalid JSON format" now)
  | Except.ok (Json.obj data) =>
    let message_type := (dictGet data "type").getD (Json.str "unknown")
    match message_type with
    | Json.str s =>
      if s = "study_request" then handle_study_request st client_id data now
      else if s = "cognitive_architecture_query" then handle_cognitive_query st client_id data now
      else if s = "neural_transport" then handle_neural_transport st client_id data now
      else if s = "protocol_introspection" then handle_protocol_introspection st client_id data now
      else (st, Json.obj [
        ("type", Json.str "error"),
        ("error", Json.str ("Unknown message type: " ++ String.mk (pyStr message_type))),
        ("timestamp", Json.str now)])
    | _ => (st, Json.obj [
        ("type", Json.str "error"),
        ("error", Json.str ("Unknown message type: " ++ String.mk (pyStr message_type))),
        ("timestamp", Json.str now)])
  | Except.ok other =>
    (st, errorResponse ("'" ++ pyTypeName other ++ "' object has no attribute 'get'") now)


/-- C7.  A message that is not valid JSON makes `process_message` send the
client the error response `"Invalid JSON format"` (with the current
timestamp), and leaves the server state — both the `clients` and the
`study_sessions` dictionaries — unchanged. -/
theorem process_message_invalid_json (st : MCPState) (client_id : String) (now : String) :
    process_message st client_id (Except.error ()) now =
      (st, Json.obj [("type", Json.str "error"),
                     ("error", Json.str "Invalid JSON format"),
                     ("timestamp", Json.str now)]) ∧
    (process_message st client_id (Except.error ()) now).1.clients = st.clients ∧
    (process_message st client_id (Except.error ()) now).1.study_sessions = st.study_sessions :=
  ⟨rfl, rfl, rfl⟩

/-- C4.  `process_message` on a well-formed JSON object message dispatches
on the `type` field: each of the four known types goes to its handler, any
other value of the field produces an error response
`"Unknown message type: <type>"` where `<type>` is the Python string
rendering of the field (and the field defaults to the string `"unknown"`
when absent). -/
theorem process_message_dispatch (st : MCPState) (client_id : String) (now : String)
    (data : List (String × Json)) :
    ((dictGet data "type").getD (Json.str "unknown") = Json.str "study_request" →
      process_message st client_id (Except.ok (Json.obj data)) now =
        handle_study_request st client_id data now) ∧
    ((dictGet data "type").getD (Json.str "unknown") = Json.str "cognitive_architecture_query" →
      process_message st client_id (Except.ok (Json.obj data)) now =
        handle_cognitive_query st client_id data now) ∧
    ((dictGet data "type").getD (Json.str "unknown") = Json.str "neural_transport" →
      process_message st client_id (Except.ok (Json.obj data)) now =
        handle_neural_transport st client_id data now) ∧
    ((dictGet data "type").getD (Json.str "unknown") = Json.str "protocol_introspection" →
      process_message st client_id (Except.ok (Json.obj data)) now =
        handle_protocol_introspection st client_id data now) ∧
    ((∀ s, (dictGet data "type").getD (Json.str "unknown") = Json.str s →
        s ≠ "study_request" ∧ s ≠ "cognitive_architecture_query" ∧
        s ≠ "neural_transport" ∧ s ≠ "protocol_introspection") →
      (process_message st client_id (Except.ok (Json.obj data)) now).2 =
        Json.obj [("type", Json.str "error"),
          ("error", Json.str ("Unknown message type: " ++
            String.mk (pyStr ((dictGet data "type").getD (Json.str "unknown"))))),
          ("timestamp", Json.str now)]) ∧
    (dictGet data "type" = none →
      (dictGet data "type").getD (Json.str "unknown") = Json.str "unknown") := by
  refine ⟨?_, ?_, ?_, ?_, ?_, ?_⟩
  · intro h
    simp only [process_message, h, if_pos]
  · intro h
    simp only [process_message, h]
    simp +decide
  · intro h
    simp only [process_message, h]
    simp +decide
  · intro h
    simp only [process_message, h]
    simp +decide
  · intro h
    simp only [process_message]
    cases ht : (dictGet data "type").getD (Json.str "unknown") with
    | str s =>
      rcases h s ht with ⟨h1, h2, h3, h4⟩
      simp only [ht, h1, h2, h3, h4, if_false]
    | null => simp [ht]
    | bool b => simp [ht]
    | num n => simp [ht]
    | arr xs => simp [ht]
    | obj kvs => simp [ht]
  · intro h
    simp [h]

/-- Closed witness for `process_message_dispatch`: instantiates the
dispatch theorem at the empty message (no `type` field), discharging the
"unknown type" and "field absent" hypotheses. -/
theorem process_message_dispatch_witness :
    (process_message ⟨[], []⟩ "client_1" (Except.ok (Json.obj [])) "t0").2 =
      Json.obj [("type", Json.str "error"),
        ("error", Json.str ("Unknown message type: " ++
          String.mk (pyStr ((dictGet [] "type").getD (Json.str "unknown"))))),
        ("timestamp", Json.str "t0")] ∧
    (dictGet ([] : List (String × Json)) "type").getD (Json.str "unknown") =
      Json.str "unknown" := by
  have h := process_message_dispatch ⟨[], []⟩ "client_1" "t0" []
  refine ⟨h.2.2.2.2.1 ?_, h.2.2.2.2.2 rfl⟩
  intro s hs
  have hu : "unknown" = s := by
    simpa [dictGet, List.lookup] using hs
  simp [← hu]


/-! ## `protocols/lsp/server.py` : document store (didOpen / didChange / didClose) -/

/-- A document-synchronization notification, with the fields the handlers
read already extracted (Python `params.get(...)` defaults applied: a
missing `uri` is `""`; each element of `contentChanges` is its `"text"`
field, `none` when absent). -/
inductive DocEvent where
  | didOpen (uri : String) (text : List Char)
  | didChange (uri : String) (contentChanges : List (Option (List Char)))
  | didClose (uri : String)

/-- The `documents` dictionary of `LSPServer`: URI to full text. -/
def Documents : Type := List (String × List Char)

/-- `_handle_did_open` (lsp/server.py lines 159-166). -/
def _handle_did_open (docs : Documents) (uri : String) (text : List Char) : Documents :=
  dictInsert uri text docs

/-- `_handle_did_change` (lsp/server.py lines 168-177): replaces the full
text with `changes[0].get("text", "")` when the change list is non-empty
and the URI is open. -/
def _handle_did_change (docs : Documents) (uri : String)
    (changes : List (Option (List Char))) : Documents :=
  match changes with
  | [] => docs
  | c0 :: _ =>
    if dictContains docs uri then dictInsert uri (c0.getD []) docs else docs

/-- `_handle_did_close` (lsp/server.py lines 179-186). -/
def _handle_did_close (docs : Documents) (uri : String) : Documents :=
  if dictContains docs uri then dictRemove uri docs else docs

/-- Dispatch of one document-synchronization notification. -/
def applyDocEvent (docs : Documents) : DocEvent → Documents
  | DocEvent.didOpen uri text => _handle_did_open docs uri text
  | DocEvent.didChange uri changes => _handle_did_change docs uri changes
  | DocEvent.didClose uri => _handle_did_close docs uri

/-- The document store after a sequence of notifications, starting from
the empty store of a fresh `LSPServer`. -/
def runDocEvents (events : List DocEvent) : Documents :=
  events.foldl applyDocEvent []

/-- One step of the claim's per-URI specification: the text under `uri`
after an event, given the text `cur` currently associated (if any):
`didOpen` stores the supplied text, a `didChange` with a non-empty change
list replaces the text when the URI is open and does nothing otherwise,
`didClose` removes it. -/
def docSpecStep (uri : String) (cur : Option (List Char)) : DocEvent → Option (List Char)
  | DocEvent.didOpen u t => if u = uri then some t else cur
  | DocEvent.didChange u cs =>
    match cs with
    | [] => cur
    | c0 :: _ => if u = uri ∧ cur.isSome then some (c0.getD []) else cur
  | DocEvent.didClose u => if u = uri then none else cur

/-- The claim's specification of the store contents: fold the per-URI
automaton over the event sequence. -/
def docSpec (events : List DocEvent) (uri : String) : Option (List Char) :=
  events.foldl (docSpecStep uri) none

lemma lookup_applyDocEvent (docs : Documents) (e : DocEvent) (uri : String) :
    (applyDocEvent docs e).lookup uri = docSpecStep uri (docs.lookup uri) e := by
  cases e with
  | didOpen u t =>
    simp only [applyDocEvent, _handle_did_open, docSpecStep, lookup_dictInsert]
    by_cases hu : u = uri
    · simp [hu]
    · have : ¬ (uri = u) := fun h => hu h.symm
      simp [this, hu]
  | didChange u cs =>
    cases cs with
    | nil => simp [applyDocEvent, _handle_did_change, docSpecStep]
    | cons c0 rest =>
      simp only [applyDocEvent, _handle_did_change, docSpecStep]
      by_cases hc : dictContains docs u
      · rw [if_pos hc, lookup_dictInsert]
        by_cases hu : u = uri
        · subst hu
          have : (docs.lookup u).isSome := (dictContains_iff_lookup_isSome docs u).mp hc
          simp [this]
        · have : ¬ (uri = u) := fun h => hu h.symm
          simp [this, hu]
      · rw [if_neg hc]
        by_cases hu : u = uri
        · subst hu
          have : ¬ (docs.lookup u).isSome := fun h =>
            hc ((dictContains_iff_lookup_isSome docs u).mpr h)
          simp [this]
        · simp [hu]
  | didClose u =>
    simp only [applyDocEvent, _handle_did_close, docSpecStep]
    by_cases hc : dictContains docs u
    · rw [if_pos hc, lookup_dictRemove]
      by_cases hu : u = uri
      · subst hu; simp
      · have : ¬ (uri = u) := fun h => hu h.symm
        simp [this, hu]
    · rw [if_neg hc]
      by_cases hu : u = uri
      · subst hu
        have : docs.lookup u = none := by
          cases h : docs.lookup u with
          | none => rfl
          | some v =>
            exact absurd ((dictContains_iff_lookup_isSome docs u).mpr (by simp [h])) hc
        simp [this]
      · simp [hu]

lemma lookup_foldl_docEvents (events : List DocEvent) :
    ∀ (docs : Documents) (uri : String),
      (events.foldl applyDocEvent docs).lookup uri =
        events.foldl (docSpecStep uri) (docs.lookup uri) := by
  induction events with
  | nil => intro docs uri; rfl
  | cons e rest ih =>
    intro docs uri
    simp only [List.foldl_cons]
    rw [ih, lookup_applyDocEvent]

/-- C9.  Document-store invariant: after any sequence of `didOpen`,
`didChange` and `didClose` notifications, the store associates to each URI
exactly the text prescribed by the claim's per-URI automaton `docSpec`
(the URI is present iff it was opened and not subsequently closed, with
the full text of the most recent open/change); moreover a `didChange` for
a URI that is not open, or with an empty `contentChanges` list, leaves the
store unchanged. -/
theorem document_store_invariant (events : List DocEvent) (uri : String) :
    (runDocEvents events).lookup uri = docSpec events uri ∧
    (∀ (docs : Documents) (u : String) (cs : List (Option (List Char))),
      docs.lookup u = none → applyDocEvent docs (DocEvent.didChange u cs) = docs) ∧
    (∀ (docs : Documents) (u : String),
      applyDocEvent docs (DocEvent.didChange u []) = docs) := by
  refine ⟨?_, ?_, ?_⟩
  · unfold runDocEvents docSpec
    rw [lookup_foldl_docEvents]
    rfl
  · intro docs u cs hnone
    cases cs with
    | nil => rfl
    | cons c0 rest =>
      simp only [applyDocEvent, _handle_did_change]
      have : dictContains docs u = false := by
        cases h : dictContains docs u
        · rfl
        · exact absurd ((dictContains_iff_lookup_isSome docs u).mp h) (by simp [hnone])
      simp [this]
  · intro docs u
    rfl

/-- Closed witness for `document_store_invariant`: open-change-close on a
concrete sequence, discharging the "URI not open" hypothesis at an empty
store. -/
theorem document_store_invariant_witness :
    (runDocEvents [DocEvent.didOpen "file:a" "x".toList,
                   DocEvent.didChange "file:a" [some "y".toList],
                   DocEvent.didClose "file:a"]).lookup "file:a" =
      docSpec [DocEvent.didOpen "file:a" "x".toList,
               DocEvent.didChange "file:a" [some "y".toList],
               DocEvent.didClose "file:a"] "file:a" ∧
    applyDocEvent [] (DocEvent.didChange "file:b" [some "z".toList]) = [] := by
  have h := document_store_invariant
    [DocEvent.didOpen "file:a" "x".toList,
     DocEvent.didChange "file:a" [some "y".toList],
     DocEvent.didClose "file:a"] "file:a"
  exact ⟨h.1, h.2.1 [] "file:b" [some "z".toList] rfl⟩


/-! ## `protocols/lsp/server.py` : word extraction and hover -/

/-- `str.split` on a single separator character (Python
`content.split('\n')`). -/
def splitOnChar (sep : Char) : List Char → List (List Char)
  | [] => [[]]
  | c :: rest =>
    match splitOnChar sep rest with
    | [] => [[]]
    | hd :: tl => if c = sep then [] :: hd :: tl else (c :: hd) :: tl

/-- The word-character test of `_get_word_at_position`:
`line[i].isalnum() or line[i] == '_'` (ASCII model of `str.isalnum`). -/
def pyIsWordChar (c : Char) : Bool :=
  c.isAlphanum || c = '_'

/-- The left scan `while start > 0 and (line[start-1].isalnum() or
line[start-1] == '_'): start -= 1`. -/
def scanLeft (l : List Char) : Nat → Nat
  | 0 => 0
  | j + 1 => if pyIsWordChar (l.getD j ' ') then scanLeft l j else j + 1

/-- The right scan `while end < len(line) and (line[end].isalnum() or
line[end] == '_'): end += 1`. -/
def scanRight (l : List Char) (i : Nat) : Nat :=
  if h : i < l.length then
    if pyIsWordChar (l.get ⟨i, h⟩) then scanRight l (i + 1) else i
  else i
  termination_by l.length - i

/-- `_get_word_at_position` (lsp/server.py lines 259-286); the `line` and
`character` fields of the position (with their `get(..., 0)` defaults
applied) are passed as naturals. -/
def _get_word_at_position (docs : Documents) (uri : String) (line_num char_num : Nat) :
    Option (List Char) :=
  match docs.lookup uri with
  | none => none
  | some content =>
    let lines := splitOnChar '\n' content
    if hl : line_num < lines.length then
      let l := lines.get ⟨line_num, hl⟩
      if char_num < l.length then
        let start := scanLeft l char_num
        let stop := scanRight l char_num
        if start < stop then some ((l.drop start).take (stop - start)) else none
      else none
    else none

/-- The fixed `hover_map` of `_generate_hover_info` (lsp/server.py lines
290-300). -/
def hover_map : List (String × String) :=
  [("CognitiveCity", "**CognitiveCity**: A GitHub organization functioning as a cognitive city with neural transport capabilities."),
   ("ContextualMemoryPattern", "**ContextualMemoryPattern**: Patterns of action and execution traces for progressive encoding."),
   ("OperationalizedRAGFabric", "**OperationalizedRAGFabric**: Links project imperatives to agent-based issue clustering."),
   ("NeuralTransportNetwork", "**NeuralTransportNetwork**: High-bandwidth communication system between cognitive cities."),
   ("particle_swarm", "**Particle Swarm**: LLM-as-particle-swarm-accelerator for distributed cognition optimization."),
   ("activation_landscape", "**Activation Landscape**: Current state of cognitive activation across different specializations."),
   ("salience_score", "**Salience Score**: Measure of importance/relevance of a memory pattern or cognitive element."),
   ("enterprise_ai", "**Enterprise AI**: AI systems designed for enterprise-scale cognitive architectures."),
   ("neural_transport", "**Neural Transport**: Communication protocol for inter-organizational cognitive data transfer.")]

/-- `_generate_hover_info`: `hover_map.get(word)`. -/
def _generate_hover_info (word : String) : Option String :=
  hover_map.lookup word

/-- `_handle_hover` (lsp/server.py lines 188-212). -/
def _handle_hover (docs : Documents) (uri : String) (line_num char_num : Nat) :
    Option Json :=
  if dictContains docs uri then
    match _get_word_at_position docs uri line_num char_num with
    | none => none
    | some w =>
      match _generate_hover_info (String.mk w) with
      | none => none
      | some info =>
        some (Json.obj [("contents",
          Json.obj [("kind", Json.str "markdown"), ("value", Json.str info)])])
  else none

/-- C5.  The hover result is determined solely by the identifier word at
the requested position: it equals the `hover_map` lookup of that word
wrapped in a fixed markdown-contents object, `None` when there is no word
(in particular when the URI is not open, in which case no word exists) or
the word is not one of the nine keys of the fixed map. -/
theorem handle_hover_spec (docs : Documents) (uri : String) (line_num char_num : Nat) :
    _handle_hover docs uri line_num char_num =
      (match _get_word_at_position docs uri line_num char_num with
       | none => none
       | some w => (_generate_hover_info (String.mk w)).map (fun info =>
           Json.obj [("contents",
             Json.obj [("kind", Json.str "markdown"), ("value", Json.str info)])])) ∧
    (dictContains docs uri = false →
      _get_word_at_position docs uri line_num char_num = none) ∧
    hover_map.length = 9 := by
  refine ⟨?_, ?_, rfl⟩
  · unfold _handle_hover
    by_cases hc : dictContains docs uri
    · rw [if_pos hc]
      cases hw : _get_word_at_position docs uri line_num char_num with
      | none => rfl
      | some w =>
        cases hi : _generate_hover_info (String.mk w) with
        | none => simp [hi]
        | some info => simp [hi]
    · rw [if_neg hc]
      have hnone : docs.lookup uri = none := by
        cases h : docs.lookup uri with
        | none => rfl
        | some v =>
          exact absurd ((dictContains_iff_lookup_isSome docs uri).mpr (by simp [h])) hc
      unfold _get_word_at_position
      rw [hnone]
  · intro hc
    have hnone : docs.lookup uri = none := by
      cases h : docs.lookup uri with
      | none => rfl
      | some v =>
        have := (dictContains_iff_lookup_isSome docs uri).mpr (by simp [h])
        rw [hc] at this
        exact absurd this (by simp)
    unfold _get_word_at_position
    rw [hnone]

/-- Closed witness for `handle_hover_spec`: a store in which the URI is
not open, discharging the "URI not open" hypothesis. -/
theorem handle_hover_spec_witness :
    _handle_hover [] "file:x" 0 0 =
      (match _get_word_at_position [] "file:x" 0 0 with
       | none => none
       | some w => (_generate_hover_info (String.mk w)).map (fun info =>
           Json.obj [("contents",
             Json.obj [("kind", Json.str "markdown"), ("value", Json.str info)])])) ∧
    _get_word_at_position [] "file:x" 0 0 = none := by
  have h := handle_hover_spec [] "file:x" 0 0
  exact ⟨h.1, h.2.1 rfl⟩


/-! ## `json.dumps` (default separators, `ensure_ascii=True`) -/

/-- Four lowercase hex digits of `n` (for `\uXXXX` escapes). -/
def hex4 (n : Nat) : List Char :=
  [hexDigitChar (n / 4096), hexDigitChar (n / 256), hexDigitChar (n / 16), hexDigitChar n]

/-- `json.dumps` escaping of one string character (`ensure_ascii=True`):
printable ASCII is kept, the quote and backslash and control characters are
escaped, non-ASCII becomes `\uXXXX` (with surrogate pairs above the BMP). -/
def jsonEscChar (c : Char) : List Char :=
  if c = '"' then ['\\', '"']
  else if c = '\\' then ['\\', '\\']
  else if c = '\n' then ['\\', 'n']
  else if c = '\r' then ['\\', 'r']
  else if c = '\t' then ['\\', 't']
  else if c.toNat = 8 then ['\\', 'b']
  else if c.toNat = 12 then ['\\', 'f']
  else if c.toNat < 32 then ['\\', 'u', '0', '0', hexDigitChar (c.toNat / 16), hexDigitChar (c.toNat % 16)]
  else if c.toNat < 127 then [c]
  else if c.toNat < 65536 then '\\' :: 'u' :: hex4 c.toNat
  else ('\\' :: 'u' :: hex4 (55296 + (c.toNat - 65536) / 1024)) ++
       ('\\' :: 'u' :: hex4 (56320 + (c.toNat - 65536) % 1024))

/-- `json.dumps` of a string: double-quoted with escapes. -/
def jsonQuoteStr (s : List Char) : List Char :=
  '"' :: s.flatMap jsonEscChar ++ ['"']

mutual

/-- `json.dumps` with the default separators `", "` and `": "`. -/
def dumpsJson : Json → List Char
  | Json.null => "null".toList
  | Json.bool true => "true".toList
  | Json.bool false => "false".toList
  | Json.num n => intToDec n
  | Json.str s => jsonQuoteStr s.toList
  | Json.arr xs => '[' :: dumpsArr xs ++ [']']
  | Json.obj kvs => Char.ofNat 123 :: dumpsObj kvs ++ [Char.ofNat 125]

/-- Array elements joined by `", "`. -/
def dumpsArr : List Json → List Char
  | [] => []
  | [x] => dumpsJson x
  | x :: y :: rest => dumpsJson x ++ ", ".toList ++ dumpsArr (y :: rest)

/-- Object items `"key": value` joined by `", "`. -/
def dumpsObj : List (String × Json) → List Char
  | [] => []
  | [(k, v)] => jsonQuoteStr k.toList ++ ": ".toList ++ dumpsJson v
  | (k, v) :: q :: rest =>
    jsonQuoteStr k.toList ++ ": ".toList ++ dumpsJson v ++ ", ".toList ++ dumpsObj (q :: rest)

end

/-- Keys sorted as by Python `sort_keys=True` (lexicographic string
order). -/
def sortByKey (kvs : List (String × Json)) : List (String × Json) :=
  kvs.mergeSort (fun a b => a.1 ≤ b.1)

mutual

/-- Recursively sort every object's keys (the tree that
`json.dumps(..., sort_keys=True)` serializes). -/
def sortJson : Json → Json
  | Json.null => Json.null
  | Json.bool b => Json.bool b
  | Json.num n => Json.num n
  | Json.str s => Json.str s
  | Json.arr xs => Json.arr (sortJsonArr xs)
  | Json.obj kvs => Json.obj (sortByKey (sortJsonObj kvs))

/-- `sortJson` mapped over array elements. -/
def sortJsonArr : List Json → List Json
  | [] => []
  | x :: xs => sortJson x :: sortJsonArr xs

/-- `sortJson` mapped over object values. -/
def sortJsonObj : List (String × Json) → List (String × Json)
  | [] => []
  | (k, v) :: xs => (k, sortJson v) :: sortJsonObj xs

end

/-- `json.dumps(..., sort_keys=True)`: serialize the key-sorted tree. -/
def dumpsSorted (j : Json) : List Char := dumpsJson (sortJson j)

/-! ## `blueprints/guix_builder.py` : `_generate_hash_manifest` -/

/-- `dataclasses.asdict` of a list of strings. -/
def jsonOfStrList (xs : List String) : Json := Json.arr (xs.map Json.str)

/-- `dataclasses.asdict` of a `Dict[str, str]`. -/
def jsonOfStrDict (m : List (String × String)) : Json :=
  Json.obj (m.map fun p => (p.1, Json.str p.2))

/-- `dataclasses.asdict` of a `PackageSpec` (field declaration order). -/
def asdictPackageSpec (p : PackageSpec) : Json :=
  Json.obj [
    ("name", Json.str p.name),
    ("version", Json.str p.version),
    ("source", Json.str p.source),
    ("build_system", Json.str p.build_system),
    ("dependencies", jsonOfStrList p.dependencies),
    ("build_args", Json.obj p.build_args),
    ("patches", jsonOfStrList p.patches),
    ("environment", jsonOfStrDict p.environment),
    ("checksum", match p.checksum with | none => Json.null | some s => Json.str s)]

/-- `dataclasses.asdict` of an `EnvironmentSpec` (field declaration order). -/
def asdictEnvironmentSpec (e : EnvironmentSpec) : Json :=
  Json.obj [
    ("name", Json.str e.name),
    ("description", Json.str e.description),
    ("base_system", Json.str e.base_system),
    ("packages", Json.arr (e.packages.map asdictPackageSpec)),
    ("environment_vars", jsonOfStrDict e.environment_vars),
    ("services", Json.arr e.services),
    ("volumes", jsonOfStrList e.volumes),
    ("network_config", Json.obj e.network_config),
    ("ai_specific", Json.obj e.ai_specific)]

/-- The field list of `dataclasses.asdict` of a `BuildBlueprint` (field
declaration order). -/
def asdictBlueprintFields (b : BuildBlueprint) : List (String × Json) :=
  [("name", Json.str b.name),
   ("version", Json.str b.version),
   ("created_at", Json.str b.created_at),
   ("environment", asdictEnvironmentSpec b.environment),
   ("build_instructions", jsonOfStrList b.build_instructions),
   ("test_suite", jsonOfStrList b.test_suite),
   ("benchmark_suite", jsonOfStrList b.benchmark_suite),
   ("deployment_config", Json.obj b.deployment_config),
   ("metadata", Json.obj b.metadata),
   ("hash_manifest", jsonOfStrDict b.hash_manifest)]

/-- Python `'\n'.join(strings)`. -/
def joinWithNewline : List String → List Char
  | [] => []
  | [s] => s.toList
  | s :: t :: rest => s.toList ++ '\n' :: joinWithNewline (t :: rest)

/-- `_generate_hash_manifest` (guix_builder.py lines 396-417).  `hash` is
the `sha256(...).hexdigest()` function, threaded as a parameter; the
manifest dict maps `blueprint_spec` to the hash of the sorted-key JSON of
`asdict(blueprint)` with the `hash_manifest` field popped, `package_<name>`
to the hash of each package's sorted-key JSON, and `build_instructions` to
the hash of the joined instruction lines. -/
def _generate_hash_manifest (hash : List Char → String) (blueprint : BuildBlueprint) :
    List (String × String) :=
  let blueprint_fields :=
    (asdictBlueprintFields blueprint).filter (fun p => p.1 ≠ "hash_manifest")
  let m1 := dictInsert "blueprint_spec"
    (hash (dumpsSorted (Json.obj blueprint_fields))) []
  let m2 := blueprint.environment.packages.foldl
    (fun acc p =>
      dictInsert ("package_" ++ p.name) (hash (dumpsSorted (asdictPackageSpec p))) acc)
    m1
  dictInsert "build_instructions" (hash (joinWithNewline blueprint.build_instructions)) m2

/-- C10.  `_generate_hash_manifest` pops the blueprint's own
`hash_manifest` field before hashing, so its result does not depend on
that field's value; in particular regenerating the manifest after it has
been assigned (as `create_ai_workbench_blueprint` does) is idempotent. -/
theorem generate_hash_manifest_idempotent (hash : List Char → String)
    (b : BuildBlueprint) (m : List (String × String)) :
    _generate_hash_manifest hash { b with hash_manifest := m } =
      _generate_hash_manifest hash b ∧
    _generate_hash_manifest hash
        { b with hash_manifest := _generate_hash_manifest hash b } =
      _generate_hash_manifest hash b := by
  have key : ∀ m2 : List (String × String),
      _generate_hash_manifest hash { b with hash_manifest := m2 } =
        _generate_hash_manifest hash b := fun m2 => rfl
  exact ⟨key m, key _⟩


/-! ## `cognitive_ecology_demo.py` : particle swarm optimization -/

/-- `ContextualMemoryPattern` dataclass (cognitive_ecology_demo.py).
Floats are modelled as rationals. -/
structure ContextualMemoryPattern where
  pattern_id : String
  priority_profile : List (String × ℚ)
  execution_trace : List Json
  embedding_vector : Option (List ℚ)
  salience_score : ℚ
  organization_context : String

/-- A particle dictionary of `particle_swarm_optimize`; `best_score` is
`none` while it still holds the initial `float('-inf')`. -/
structure Particle where
  position : List ℚ
  velocity : List ℚ
  best_position : Option (List ℚ)
  best_score : Option ℚ

/-- The particle constructed by the initialization loop: position
`[0.5] * 768`, velocity `[0.1] * 768`, no best yet.  These vectors are
fixed constants — no random number generator is consulted anywhere in
`cognitive_ecology_demo.py`. -/
def initParticle : Particle :=
  { position := List.replicate 768 (1/2 : ℚ)
    velocity := List.replicate 768 (1/10 : ℚ)
    best_position := none
    best_score := none }

/-- `score > best_score` with `none` standing for `float('-inf')`. -/
def scoreLt (cur : Option ℚ) (cand : Option ℚ) : Bool :=
  match cur, cand with
  | none, none => false
  | none, some _ => true
  | some _, none => false
  | some a, some b => a < b

/-- `evaluate_memory_encoding` (lines 88-97): the priority-profile
weighted sum times the coherence score. -/
def evaluate_memory_encoding (embedding : List ℚ) (pattern : ContextualMemoryPattern) : ℚ :=
  let cosmos_score := (List.range embedding.length).foldl
    (fun acc i => acc +
      embedding.getD i 0 * ((pattern.priority_profile.lookup ("dim_" ++ natToStr i)).getD 0))
    0
  let coherence_score := 1 / (1 + |embedding.foldl (· + ·) 0 - pattern.salience_score|)
  cosmos_score * coherence_score

/-- Python `max(swarm, key=lambda p: p['best_score'])` (first maximum
wins), scanning from `first`. -/
def maxByBestScore (first : Particle) (rest : List Particle) : Particle :=
  rest.foldl (fun best q => if scoreLt best.best_score q.best_score then q else best) first

/-- `swarm[i]` (every access in the loops is in bounds; the default is
never reached). -/
def swarmGet (swarm : List Particle) (i : Nat) : Particle :=
  swarm.getD i initParticle

/-- `update_particle_dynamics` (lines 99-121): the coordinatewise PSO
update with inertia 0.7, cognitive and social weights 1.4 and salience
weight 0.3 (scaled by 0.01), followed by clamping to [-1, 1].  In every
reachable state `best_position` and the swarm's global best are set; the
`getD` defaults are never reached. -/
def update_particle_dynamics (particle : Particle) (swarm : List Particle)
    (pattern : ContextualMemoryPattern) : Particle :=
  let global_best :=
    (maxByBestScore (swarmGet swarm 0) (swarm.drop 1)).best_position.getD
      (List.replicate 768 0)
  let pbest := particle.best_position.getD (List.replicate 768 0)
  let n := particle.velocity.length
  let newVel := (List.range n).map (fun i =>
    (7/10 : ℚ) * particle.velocity.getD i 0 +
    (7/5 : ℚ) * (pbest.getD i 0 - particle.position.getD i 0) +
    (7/5 : ℚ) * (global_best.getD i 0 - particle.position.getD i 0) +
    (3/10 : ℚ) * pattern.salience_score * (1/100))
  let newPos := (List.range n).map (fun i =>
    max (-1 : ℚ) (min 1 (particle.position.getD i 0 + newVel.getD i 0))) ++
    particle.position.drop n
  { particle with velocity := newVel, position := newPos }

/-- One body of the inner `for particle in particles` loop (lines 73-82):
evaluate the particle at index `i`, update its personal best, then update
its dynamics against the current swarm. -/
def stepParticle (pattern : ContextualMemoryPattern) (swarm : List Particle) (i : Nat) :
    List Particle :=
  let p := swarmGet swarm i
  let score := evaluate_memory_encoding p.position pattern
  let p1 := if scoreLt p.best_score (some score) then
      { p with best_score := some score, best_position := some p.position } else p
  let swarm1 := swarm.set i p1
  let p2 := update_particle_dynamics p1 swarm1 pattern
  swarm1.set i p2

/-- `particle_swarm_optimize` (lines 58-86): ten particles initialized to
the fixed vectors, fifty sweeps of the inner loop, then the best position
found. -/
def particle_swarm_optimize (pattern : ContextualMemoryPattern) : List ℚ :=
  let particles := List.replicate 10 initParticle
  let final := (List.range 50).foldl
    (fun sw _ => (List.range 10).foldl (stepParticle pattern) sw) particles
  (maxByBestScore (swarmGet final 0) (final.drop 1)).best_position.getD []

/-- Counterexample to C8 as stated: `particle_swarm_optimize` is a
deterministic function of its input pattern — there is no memory pattern
on which two runs can return different embedding vectors — and the
particle positions are initialized to the fixed constant vector
`[0.5] * 768`, not drawn at random. -/
theorem particle_swarm_not_random :
    (¬ ∃ pattern : ContextualMemoryPattern,
        particle_swarm_optimize pattern ≠ particle_swarm_optimize pattern) ∧
    initParticle.position = List.replicate 768 (1/2 : ℚ) :=
  ⟨fun ⟨_, h⟩ => h rfl, rfl⟩

/-- C8 (amended).  The particle position and velocity vectors used by
`particle_swarm_optimize` are the fixed constants `[0.5] * 768` and
`[0.1] * 768` for every particle of the initial swarm — the module draws
no random numbers — and the function is deterministic: runs on equal
patterns return equal embedding vectors. -/
theorem particle_swarm_deterministic :
    (∀ p ∈ List.replicate 10 initParticle,
      p.position = List.replicate 768 (1/2 : ℚ) ∧
      p.velocity = List.replicate 768 (1/10 : ℚ)) ∧
    (∀ pattern1 pattern2 : ContextualMemoryPattern, pattern1 = pattern2 →
      particle_swarm_optimize pattern1 = particle_swarm_optimize pattern2) := by
  constructor
  · intro p hp
    have hpe := List.eq_of_mem_replicate hp
    subst hpe
    exact ⟨rfl, rfl⟩
  · intro p1 p2 h
    rw [h]

/-- Closed witness for `particle_swarm_deterministic` at the initial
particle and a concrete pattern. -/
theorem particle_swarm_deterministic_witness :
    (initParticle.position = List.replicate 768 (1/2 : ℚ) ∧
     initParticle.velocity = List.replicate 768 (1/10 : ℚ)) ∧
    particle_swarm_optimize
        ⟨"ordo_ab_chao_custom_instructions", [], [], none, (19/20 : ℚ),
         "github.com/organizations/cogpilot"⟩ =
      particle_swarm_optimize
        ⟨"ordo_ab_chao_custom_instructions", [], [], none, (19/20 : ℚ),
         "github.com/organizations/cogpilot"⟩ :=
  ⟨particle_swarm_deterministic.1 initParticle (List.mem_replicate.mpr ⟨by decide, rfl⟩),
   particle_swarm_deterministic.2 _ _ rfl⟩


/-! ## `protocols/lsp/server.py` : JSON-RPC framing (`_send_response`,
`_read_header`, `_read_content`) -/

def parseDec (s : List Char) : Nat := s.foldl (fun acc c => acc * 10 + (c.toNat - 48)) 0

lemma digitChar_toNat (n : Nat) : (digitChar n).toNat = 48 + n % 10 := by
  have h : n % 10 < 10 := Nat.mod_lt _ (by omega)
  unfold digitChar
  set m := n % 10 with hm
  interval_cases m <;> decide

lemma digitChar_isDigit (n : Nat) : (digitChar n).isDigit = true := by
  have h : n % 10 < 10 := Nat.mod_lt _ (by omega)
  unfold digitChar
  set m := n % 10 with hm
  interval_cases m <;> decide

lemma natToDec_ne_nil (n : Nat) : natToDec n ≠ [] := by
  unfold natToDec
  by_cases h : n < 10 <;> simp [h]

lemma natToDec_all_digits (n : Nat) : ∀ c ∈ natToDec n, c.isDigit = true := by
  induction n using natToDec.induct with
  | case1 n h =>
    intro c hc
    rw [natToDec, dif_pos h] at hc
    simp at hc
    subst hc
    exact digitChar_isDigit n
  | case2 n h ih =>
    intro c hc
    rw [natToDec, dif_neg h] at hc
    rcases List.mem_append.mp hc with h1 | h1
    · exact ih c h1
    · simp at h1
      subst h1
      exact digitChar_isDigit (n % 10)

lemma parseDec_append_digit (xs : List Char) (c : Char) :
    parseDec (xs ++ [c]) = 10 * parseDec xs + (c.toNat - 48) := by
  unfold parseDec
  rw [List.foldl_append]
  simp [Nat.mul_comm]

lemma parseDec_natToDec (n : Nat) : parseDec (natToDec n) = n := by
  induction n using natToDec.induct with
  | case1 n h =>
    rw [natToDec, dif_pos h]
    simp [parseDec, digitChar_toNat]
    omega
  | case2 n h ih =>
    rw [natToDec, dif_neg h, parseDec_append_digit, ih, digitChar_toNat]
    omega

def isPySpace (c : Char) : Bool :=
  c = ' ' || c = '\t' || c = '\n' || c = '\r' || c.toNat = 11 || c.toNat = 12

def pyStrip (s : List Char) : List Char :=
  ((s.dropWhile isPySpace).reverse.dropWhile isPySpace).reverse

def pyReadLine (s : List Char) : List Char × List Char :=
  let before := s.takeWhile (fun c => c ≠ '\n')
  match s.dropWhile (fun c => c ≠ '\n') with
  | [] => (before, [])
  | _ :: tail => (before ++ ['\n'], tail)

def pySplitOnce (sep : Char) (s : List Char) : List Char × List Char :=
  (s.takeWhile (fun c => c ≠ sep), (s.dropWhile (fun c => c ≠ sep)).drop 1)

def pyIsDigitStr (s : List Char) : Bool := !s.isEmpty && s.all Char.isDigit

inductive HeaderVal where
  | int (n : Nat)
  | str (s : List Char)
deriving DecidableEq

def headerInsert (k : List Char) (v : HeaderVal) :
    List (List Char × HeaderVal) → List (List Char × HeaderVal)
  | [] => [(k, v)]
  | p :: rest => if p.1 = k then (k, v) :: rest else p :: headerInsert k v rest

def processHeaderLine (line : List Char) (header : List (List Char × HeaderVal)) :
    List (List Char × HeaderVal) :=
  if line.any (fun c => c = ':') then
    let kv := pySplitOnce ':' line
    let v := pyStrip kv.2
    headerInsert (pyStrip kv.1)
      (if pyIsDigitStr v then HeaderVal.int (parseDec v) else HeaderVal.str v) header
  else header

lemma pyReadLine_snd_length_lt (s : List Char) (hs : s ≠ []) :
    (pyReadLine s).2.length < s.length := by
  unfold pyReadLine
  cases hd : s.dropWhile (fun c => c ≠ '\n') with
  | nil =>
    cases s with
    | nil => exact absurd rfl hs
    | cons c tail => simp
  | cons c tail =>
    have hsub : (s.dropWhile (fun c => c ≠ '\n')).Sublist s := List.dropWhile_sublist _
    have h1 : (s.dropWhile (fun c => c ≠ '\n')).length ≤ s.length := hsub.length_le
    rw [hd] at h1
    simp at h1 ⊢
    omega

def _read_header (s : List Char) (header : List (List Char × HeaderVal)) :
    Option (List (List Char × HeaderVal)) × List Char :=
  let r := pyReadLine s
  let line := pyStrip r.1
  if line.isEmpty then
    if header.isEmpty then (none, r.2) else (some header, r.2)
  else
    _read_header r.2 (processHeaderLine line header)
  termination_by s.length
  decreasing_by
    refine pyReadLine_snd_length_lt s ?_
    intro hnil
    subst hnil
    rename_i hline
    exact hline rfl

def _read_content (length : Nat) (s : List Char) : Option (List Char) :=
  let content := s.take length
  if content.isEmpty then none else some content

lemma takeWhile_append_all {p : Char → Bool} (xs ys : List Char) (h : ∀ x ∈ xs, p x = true) :
    (xs ++ ys).takeWhile p = xs ++ ys.takeWhile p := by
  induction xs with
  | nil => simp
  | cons c t ih =>
    have hc := h c (by simp)
    simp only [List.cons_append, List.takeWhile_cons, hc, if_true]
    rw [ih (fun x hx => h x (by simp [hx]))]

lemma dropWhile_append_all {p : Char → Bool} (xs ys : List Char) (h : ∀ x ∈ xs, p x = true) :
    (xs ++ ys).dropWhile p = ys.dropWhile p := by
  induction xs with
  | nil => simp
  | cons c t ih =>
    have hc := h c (by simp)
    simp only [List.cons_append, List.dropWhile_cons, hc, if_true]
    exact ih (fun x hx => h x (by simp [hx]))

lemma takeWhile_cons_stop {p : Char → Bool} (c : Char) (l : List Char) (h : p c = false) :
    (c :: l).takeWhile p = [] := by
  simp [List.takeWhile_cons, h]

lemma dropWhile_cons_stop {p : Char → Bool} (c : Char) (l : List Char) (h : p c = false) :
    (c :: l).dropWhile p = c :: l := by
  simp [List.dropWhile_cons, h]

lemma dropWhile_eq_self_of_all {p : Char → Bool} (xs : List Char)
    (h : ∀ x ∈ xs, p x = false) : xs.dropWhile p = xs := by
  cases xs with
  | nil => rfl
  | cons c t => exact dropWhile_cons_stop c t (h c (by simp))

lemma isDigit_toNat_bounds (c : Char) (h : c.isDigit = true) :
    48 ≤ c.toNat ∧ c.toNat ≤ 57 := by
  simp [Char.isDigit] at h
  exact ⟨h.1, h.2⟩

lemma isDigit_not_space (c : Char) (h : c.isDigit = true) : isPySpace c = false := by
  have hb := isDigit_toNat_bounds c h
  unfold isPySpace
  have h1 : ¬ c = ' ' := fun he => by rw [he] at hb; exact absurd hb (by decide)
  have h2 : ¬ c = '\t' := fun he => by rw [he] at hb; exact absurd hb (by decide)
  have h3 : ¬ c = '\n' := fun he => by rw [he] at hb; exact absurd hb (by decide)
  have h4 : ¬ c = '\r' := fun he => by rw [he] at hb; exact absurd hb (by decide)
  have h5 : ¬ c.toNat = 11 := by omega
  have h6 : ¬ c.toNat = 12 := by omega
  simp [h1, h2, h3, h4, h5, h6]

lemma isDigit_ne_newline (c : Char) (h : c.isDigit = true) : (c ≠ '\n') = True := by
  have hb := isDigit_toNat_bounds c h
  simp
  intro he
  rw [he] at hb
  exact absurd hb (by decide)

lemma isDigit_ne_colon (c : Char) (h : c.isDigit = true) : (c ≠ ':') = True := by
  have hb := isDigit_toNat_bounds c h
  simp
  intro he
  rw [he] at hb
  exact absurd hb (by decide)

lemma dropWhile_cons_skip {p : Char → Bool} (c : Char) (l : List Char) (h : p c = true) :
    (c :: l).dropWhile p = l.dropWhile p := by
  simp [List.dropWhile_cons, h]

lemma dropWhile_append_stop_of_all {p : Char → Bool} (xs ys : List Char) (hne : xs ≠ [])
    (h : ∀ x ∈ xs, p x = false) : (xs ++ ys).dropWhile p = xs ++ ys := by
  cases xs with
  | nil => exact absurd rfl hne
  | cons c t =>
    have hc := h c (by simp)
    simp [List.dropWhile_cons, hc]

lemma pyStrip_of_digits (D : List Char)
    (hd : ∀ c ∈ D, c.isDigit = true) : pyStrip (' ' :: D) = D := by
  unfold pyStrip
  have hspace : ∀ c ∈ D, isPySpace c = false := fun c hc => isDigit_not_space c (hd c hc)
  rw [dropWhile_cons_skip ' ' D (by decide), dropWhile_eq_self_of_all D hspace]
  rw [dropWhile_eq_self_of_all D.reverse (fun c hc => hspace c (List.mem_reverse.mp hc))]
  exact List.reverse_reverse D

lemma pyStrip_header_line (D : List Char) (hne : D ≠ [])
    (hd : ∀ c ∈ D, c.isDigit = true) :
    pyStrip ("Content-Length: ".toList ++ D ++ ['\r', '\n']) =
      "Content-Length: ".toList ++ D := by
  unfold pyStrip
  have hspace : ∀ c ∈ D, isPySpace c = false := fun c hc => isDigit_not_space c (hd c hc)
  have hP : "Content-Length: ".toList = 'C' :: "ontent-Length: ".toList := rfl
  have step1 : (("Content-Length: ".toList ++ D ++ ['\r', '\n']).dropWhile isPySpace) =
      "Content-Length: ".toList ++ D ++ ['\r', '\n'] := by
    rw [hP]
    simp only [List.cons_append, List.append_assoc]
    exact dropWhile_cons_stop _ _ (by decide)
  rw [step1]
  have hrev : ("Content-Length: ".toList ++ D ++ ['\r', '\n']).reverse =
      '\n' :: '\r' :: (D.reverse ++ "Content-Length: ".toList.reverse) := by
    simp [List.reverse_append]
  rw [hrev]
  rw [dropWhile_cons_skip _ _ (by decide), dropWhile_cons_skip _ _ (by decide)]
  have hDrev : D.reverse ≠ [] := by
    intro h
    exact hne (by simpa using congrArg List.reverse h)
  rw [dropWhile_append_stop_of_all D.reverse _ hDrev
    (fun c hc => hspace c (List.mem_reverse.mp hc))]
  simp [List.reverse_append]

lemma pyReadLine_header (D X : List Char) (hd : ∀ c ∈ D, c.isDigit = true) :
    pyReadLine ("Content-Length: ".toList ++ D ++ ('\r' :: '\n' :: X)) =
      ("Content-Length: ".toList ++ D ++ ['\r', '\n'], X) := by
  unfold pyReadLine
  have hPnl : ∀ c ∈ "Content-Length: ".toList, (decide (c ≠ '\n')) = true := by decide
  have hq : ∀ c ∈ "Content-Length: ".toList ++ D, (decide (c ≠ '\n')) = true := by
    intro c hc
    rcases List.mem_append.mp hc with h | h
    · exact hPnl c h
    · have := isDigit_ne_newline c (hd c h)
      simp at this ⊢
      exact this
  have htake : ((("Content-Length: ".toList ++ D) ++ ('\r' :: '\n' :: X)).takeWhile
      (fun c => decide (c ≠ '\n'))) = ("Content-Length: ".toList ++ D) ++ ['\r'] := by
    rw [takeWhile_append_all _ _ hq]
    rw [List.takeWhile_cons]
    norm_num
    decide
  have hdrop : ((("Content-Length: ".toList ++ D) ++ ('\r' :: '\n' :: X)).dropWhile
      (fun c => decide (c ≠ '\n'))) = '\n' :: X := by
    rw [dropWhile_append_all _ _ hq]
    rw [dropWhile_cons_skip _ _ (by simp +decide)]
    rw [dropWhile_cons_stop _ _ (by simp)]
  simp only [List.append_assoc] at htake hdrop ⊢
  simp only [htake, hdrop]
  simp [List.append_assoc]

lemma processHeaderLine_content_length (D : List Char) (hne : D ≠ [])
    (hd : ∀ c ∈ D, c.isDigit = true) :
    processHeaderLine ("Content-Length: ".toList ++ D) [] =
      [("Content-Length".toList, HeaderVal.int (parseDec D))] := by
  unfold processHeaderLine
  have hany : (("Content-Length: ".toList ++ D).any (fun c => c = ':')) = true := by
    rw [List.any_append]
    have : ("Content-Length: ".toList.any (fun c => c = ':')) = true := by decide
    simp [this]
  rw [if_pos hany]
  have hsplitP : "Content-Length: ".toList ++ D =
      "Content-Length".toList ++ (':' :: ' ' :: D) := rfl
  have hPcolon : ∀ c ∈ "Content-Length".toList, (decide (c ≠ ':')) = true := by decide
  have htakeC : (("Content-Length: ".toList ++ D).takeWhile (fun c => decide (c ≠ ':'))) =
      "Content-Length".toList := by
    rw [hsplitP, takeWhile_append_all _ _ hPcolon, takeWhile_cons_stop _ _ (by simp)]
    simp
  have hdropC : (("Content-Length: ".toList ++ D).dropWhile (fun c => decide (c ≠ ':'))) =
      ':' :: ' ' :: D := by
    rw [hsplitP, dropWhile_append_all _ _ hPcolon, dropWhile_cons_stop _ _ (by simp)]
  unfold pySplitOnce
  simp only [htakeC, hdropC, List.drop_succ_cons, List.drop_zero]
  have hstripkey : pyStrip "Content-Length".toList = "Content-Length".toList := by decide
  rw [hstripkey, pyStrip_of_digits D hd]
  have hdig : pyIsDigitStr D = true := by
    unfold pyIsDigitStr
    have h1 : D.isEmpty = false := by
      cases D with
      | nil => exact absurd rfl hne
      | cons c t => rfl
    have h2 : D.all Char.isDigit = true := List.all_eq_true.mpr hd
    simp [h1, h2]
  rw [hdig]
  rfl

lemma read_header_of_framed (body rest : List Char) :
    _read_header ("Content-Length: ".toList ++ natToDec body.length ++
        ('\r' :: '\n' :: '\r' :: '\n' :: (body ++ rest))) [] =
      (some [("Content-Length".toList, HeaderVal.int body.length)], body ++ rest) := by
  have hd := natToDec_all_digits body.length
  have hne := natToDec_ne_nil body.length
  have h1 : pyReadLine ("Content-Length: ".toList ++ natToDec body.length ++
      ('\r' :: '\n' :: '\r' :: '\n' :: (body ++ rest))) =
      ("Content-Length: ".toList ++ natToDec body.length ++ ['\r', '\n'],
       '\r' :: '\n' :: (body ++ rest)) :=
    pyReadLine_header _ _ hd
  have h2 := pyStrip_header_line (natToDec body.length) hne hd
  rw [_read_header]
  rw [h1]
  simp only [h2]
  have hcons : "Content-Length: ".toList ++ natToDec body.length =
      'C' :: ("ontent-Length: ".toList ++ natToDec body.length) := rfl
  rw [hcons]
  simp only [List.isEmpty_cons, Bool.false_eq_true, if_false]
  rw [← hcons]
  rw [processHeaderLine_content_length _ hne hd, parseDec_natToDec]
  -- second loop iteration
  have h3 : pyReadLine ('\r' :: '\n' :: (body ++ rest)) = (['\r', '\n'], body ++ rest) := rfl
  rw [_read_header]
  rw [h3]
  have h4 : pyStrip ['\r', '\n'] = [] := by decide
  simp only [h4]
  simp


/-- `_send_response` (lsp/server.py lines 401-413): the bytes written to
stdout — a `Content-Length` header over the `json.dumps` body, a blank
line, then the body. -/
def _send_response (msg_id result : Json) : List Char :=
  let content := dumpsJson (Json.obj
    [("jsonrpc", Json.str "2.0"), ("id", msg_id), ("result", result)])
  "Content-Length: ".toList ++ natToDec content.length ++
    ['\r', '\n', '\r', '\n'] ++ content

/-- C3.  Framing round-trip: parsing the output of `_send_response` (with
any following bytes) by `_read_header` yields exactly the header
`Content-Length: N` with `N` the length of the JSON body, positioned at
the body; `_read_content N` then returns exactly that body. -/
theorem send_response_round_trip (msg_id result : Json) (rest : List Char) :
    _read_header (_send_response msg_id result ++ rest) [] =
      (some [("Content-Length".toList, HeaderVal.int
          (dumpsJson (Json.obj
            [("jsonrpc", Json.str "2.0"), ("id", msg_id), ("result", result)])).length)],
       dumpsJson (Json.obj
         [("jsonrpc", Json.str "2.0"), ("id", msg_id), ("result", result)]) ++ rest) ∧
    _read_content
        (dumpsJson (Json.obj
          [("jsonrpc", Json.str "2.0"), ("id", msg_id), ("result", result)])).length
        (dumpsJson (Json.obj
          [("jsonrpc", Json.str "2.0"), ("id", msg_id), ("result", result)]) ++ rest) =
      some (dumpsJson (Json.obj
        [("jsonrpc", Json.str "2.0"), ("id", msg_id), ("result", result)])) := by
  have hne : dumpsJson (Json.obj
      [("jsonrpc", Json.str "2.0"), ("id", msg_id), ("result", result)]) ≠ [] := by
    simp [dumpsJson]
  constructor
  · have := read_header_of_framed
      (dumpsJson (Json.obj
        [("jsonrpc", Json.str "2.0"), ("id", msg_id), ("result", result)])) rest
    unfold _send_response
    simpa [List.append_assoc] using this
  · unfold _read_content
    rw [List.take_left]
    have hie : (dumpsJson (Json.obj
        [("jsonrpc", Json.str "2.0"), ("id", msg_id), ("result", result)])).isEmpty = false := by
      cases hc : dumpsJson (Json.obj
          [("jsonrpc", Json.str "2.0"), ("id", msg_id), ("result", result)]) with
      | nil => exact absurd hc hne
      | cons c t => rfl
    simp [hie]


/-! ## `cognitive-ecology/reproducible_ai_builder.py` : dependency
resolution and topological sort -/

lemma lookup_some_mem {α β : Type} [BEq α] [LawfulBEq α] (l : List (α × β)) (k : α) (v : β)
    (h : l.lookup k = some v) : (k, v) ∈ l := by
  induction l with
  | nil => simp [List.lookup] at h
  | cons p ps ih =>
    rw [List.lookup] at h
    by_cases hk : k == p.1
    · have hke : k = p.1 := eq_of_beq hk
      simp only [hk, if_true] at h
      have hv : p.2 = v := Option.some.inj h
      have : (k, v) = p := by rw [hke, ← hv]
      rw [this]
      exact List.mem_cons_self p ps
    · simp only [hk, Bool.false_eq_true, if_false] at h
      exact List.mem_cons_of_mem _ (ih h)

lemma mem_keys_lookup_isSome {α β : Type} [BEq α] [LawfulBEq α] (l : List (α × β)) (k : α)
    (h : k ∈ l.map Prod.fst) : (l.lookup k).isSome := by
  induction l with
  | nil => simp at h
  | cons p ps ih =>
    rw [List.lookup]
    by_cases hk : k == p.1
    · simp [hk]
    · simp only [hk, Bool.false_eq_true, if_false]
      apply ih
      simp only [List.map_cons, List.mem_cons] at h
      rcases h with h | h
      · exact absurd (beq_iff_eq.mpr h) (by simp [hk])
      · exact h

/-- The keys of a dependency graph (a Python dict). -/
def keysG (g : List (String × List String)) : List String := g.map Prod.fst

/-- `dependency_graph.get(node, [])`. -/
def depsOf (g : List (String × List String)) (n : String) : List String :=
  (g.lookup n).getD []

/-- All names mentioned in the graph (used only as a termination measure). -/
def nodesOf (g : List (String × List String)) : Finset String :=
  (g.map Prod.fst).toFinset ∪ ((g.map Prod.snd).flatten).toFinset

lemma depsOf_eq_nil_of_not_mem_nodes (g : List (String × List String)) (n : String)
    (h : n ∉ nodesOf g) : depsOf g n = [] := by
  unfold depsOf
  cases hl : g.lookup n with
  | none => rfl
  | some ds =>
    exfalso
    apply h
    unfold nodesOf
    simp only [Finset.mem_union, List.mem_toFinset]
    exact Or.inl (lookup_some_imp_mem g n ds hl)

/-- The recursive `visit` of `_topological_sort`, embedded with explicit
state: `ns` is the worklist of nodes to visit in order, `v` the `visited`
set, `r` the `result` list; a node is appended to `r` after all of its
dependencies have been visited.  The returned subtype records that the
visited set only grows, which also drives termination. -/
def visitFn (g : List (String × List String)) :
    (ns : List String) → (v : Finset String) → (r : List String) →
    {p : Finset String × List String // v ⊆ p.1}
  | [], v, r => ⟨(v, r), Finset.Subset.refl v⟩
  | n :: ns, v, r =>
    if hn : n ∈ v then
      let ⟨p, hp⟩ := visitFn g ns v r
      ⟨p, hp⟩
    else
      let ⟨⟨v1, r1⟩, h1⟩ := visitFn g (depsOf g n) (insert n v) r
      let ⟨⟨v2, r2⟩, h2⟩ := visitFn g ns v1 (r1 ++ [n])
      ⟨(v2, r2), by
        intro x hx
        exact h2 (h1 (Finset.mem_insert_of_mem hx))⟩
  termination_by ns v r => ((nodesOf g \ v).card, ns.length)
  decreasing_by
  · exact Prod.Lex.right _ (Nat.lt_succ_self _)
  · rcases Decidable.em (n ∈ nodesOf g) with hmem | hmem
    · exact Prod.Lex.left _ _ (Finset.card_lt_card (by
        apply Finset.ssubset_iff_of_subset (Finset.sdiff_subset_sdiff (le_refl _) (Finset.subset_insert n v)) |>.mpr
        exact ⟨n, Finset.mem_sdiff.mpr ⟨hmem, hn⟩, by simp⟩))
    · have hdeps : depsOf g n = [] := depsOf_eq_nil_of_not_mem_nodes g n hmem
      rw [hdeps]
      have hcar : (nodesOf g \ insert n v) = (nodesOf g \ v) := by
        ext x
        simp only [Finset.mem_sdiff, Finset.mem_insert]
        constructor
        · rintro ⟨ha, hb⟩; exact ⟨ha, fun h => hb (Or.inr h)⟩
        · rintro ⟨ha, hb⟩
          refine ⟨ha, fun h => ?_⟩
          rcases h with h | h
          · exact hmem (h ▸ ha)
          · exact hb h
      rw [hcar]
      exact Prod.Lex.right _ (by simp)
  · rcases Decidable.em (n ∈ nodesOf g) with hmem | hmem
    · apply Prod.Lex.left
      calc (nodesOf g \ v1).card ≤ (nodesOf g \ insert n v).card := by
            apply Finset.card_le_card
            exact Finset.sdiff_subset_sdiff (le_refl _) h1
        _ < (nodesOf g \ v).card := Finset.card_lt_card (by
            apply Finset.ssubset_iff_of_subset (Finset.sdiff_subset_sdiff (le_refl _) (Finset.subset_insert n v)) |>.mpr
            exact ⟨n, Finset.mem_sdiff.mpr ⟨hmem, hn⟩, by simp⟩)
    · have hle : (nodesOf g \ v1).card ≤ (nodesOf g \ v).card := by
        apply Finset.card_le_card
        apply Finset.sdiff_subset_sdiff (le_refl _)
        exact (Finset.subset_insert n v).trans h1
      rcases lt_or_eq_of_le hle with hlt | heq
      · exact Prod.Lex.left _ _ hlt
      · rw [heq]
        exact Prod.Lex.right _ (Nat.lt_succ_self _)

/-- `_topological_sort` (reproducible_ai_builder.py lines 352-371): visit
every key of the graph, collecting the postorder `result`. -/
def _topological_sort (g : List (String × List String)) : List String :=
  (visitFn g (keysG g) ∅ []).val.2

lemma visitFn_nil (g : List (String × List String)) (v : Finset String) (r : List String) :
    (visitFn g [] v r).val = (v, r) := by
  simp [visitFn]

lemma visitFn_cons_mem (g : List (String × List String)) (n : String) (ns : List String)
    (v : Finset String) (r : List String) (hn : n ∈ v) :
    (visitFn g (n :: ns) v r).val = (visitFn g ns v r).val := by
  rw [visitFn]
  rw [dif_pos hn]

lemma visitFn_cons_not_mem (g : List (String × List String)) (n : String) (ns : List String)
    (v : Finset String) (r : List String) (hn : n ∉ v) :
    (visitFn g (n :: ns) v r).val =
      (visitFn g ns (visitFn g (depsOf g n) (insert n v) r).val.1
        ((visitFn g (depsOf g n) (insert n v) r).val.2 ++ [n])).val := by
  rw [visitFn]
  rw [dif_neg hn]

/-- The dependency edge relation of a graph: `a` depends on `b`. -/
def EdgeR (g : List (String × List String)) (a b : String) : Prop :=
  b ∈ depsOf g a

/-- A graph is acyclic when no node reaches itself through a non-empty
chain of dependencies. -/
def Acyclic (g : List (String × List String)) : Prop :=
  ∀ n, ¬ Relation.TransGen (EdgeR g) n n

/-- `d` occurs strictly before `x` in `l`. -/
def Before (d x : String) (l : List String) : Prop :=
  ∃ l₁ l₂, l = l₁ ++ l₂ ∧ d ∈ l₁ ∧ x ∈ l₂

lemma Before_append_left {d x : String} {l₁ : List String} (l₂ : List String)
    (h : Before d x l₁) : Before d x (l₁ ++ l₂) := by
  rcases h with ⟨a, b, rfl, hd, hx⟩
  exact ⟨a, b ++ l₂, by simp, hd, by simp [hx]⟩

lemma Before_append_right {d x : String} (l₁ : List String) {l₂ : List String}
    (h : Before d x l₂) : Before d x (l₁ ++ l₂) := by
  rcases h with ⟨a, b, rfl, hd, hx⟩
  exact ⟨l₁ ++ a, b, by simp, by simp [hd], hx⟩

lemma Before_parts {d x : String} {l₁ l₂ : List String} (hd : d ∈ l₁) (hx : x ∈ l₂) :
    Before d x (l₁ ++ l₂) := ⟨l₁, l₂, rfl, hd, hx⟩

lemma Before_indexOf {d x : String} {l : List String} (h : Before d x l) (hnd : l.Nodup) :
    l.indexOf d < l.indexOf x := by
  rcases h with ⟨a, b, rfl, hd, hx⟩
  have hxa : x ∉ a := fun hxa => (List.disjoint_of_nodup_append hnd) hxa hx
  rw [List.indexOf_append_of_mem hd, List.indexOf_append_of_not_mem hxa]
  calc a.indexOf d < a.length := List.indexOf_lt_length.mpr hd
    _ ≤ a.length + b.indexOf x := Nat.le_add_right _ _

/-- Postorder DFS specification: `visitFn` appends a duplicate-free block
`Δ` of newly visited nodes, `Δ` is exactly the new part of the visited
set, all worklist nodes end up visited, and every appended node is
reachable from some worklist node. -/
lemma visit_spec (g : List (String × List String)) :
    ∀ (ns : List String) (v : Finset String) (r : List String),
      ∃ Δ : List String,
        (visitFn g ns v r).val.2 = r ++ Δ ∧
        Δ.Nodup ∧
        (∀ x, x ∈ Δ ↔ (x ∈ (visitFn g ns v r).val.1 ∧ x ∉ v)) ∧
        (∀ x ∈ ns, x ∈ (visitFn g ns v r).val.1) ∧
        (∀ x ∈ Δ, ∃ l ∈ ns, Relation.ReflTransGen (EdgeR g) l x) := by
  intro ns v r
  induction ns, v, r using visitFn.induct g with
  | case1 v r =>
    refine ⟨[], by simp [visitFn_nil], List.nodup_nil, ?_, by simp, by simp⟩
    intro x
    simp [visitFn_nil]
  | case2 n ns v r hn p hp heq ih =>
    rcases ih with ⟨Δ, hr, hnd, hiff, hvis, hreach⟩
    have hval : (visitFn g (n :: ns) v r).val = (visitFn g ns v r).val :=
      visitFn_cons_mem g n ns v r hn
    refine ⟨Δ, by rw [hval]; exact hr, hnd, ?_, ?_, ?_⟩
    · intro x
      rw [hval]
      exact hiff x
    · intro x hx
      rw [hval]
      rcases List.mem_cons.mp hx with h | h
      · subst h
        exact (visitFn g ns v r).property hn
      · exact hvis x h
    · intro x hx
      rcases hreach x hx with ⟨l, hl, hrt⟩
      exact ⟨l, List.mem_cons_of_mem _ hl, hrt⟩
  | case3 n ns v r hn v1 r1 h1 heq1 v2 r2 h2 heq2 ih1 ih2 =>
    rcases ih1 with ⟨Δ1, hr1, hnd1, hiff1, hvis1, hreach1⟩
    rcases ih2 with ⟨Δ2, hr2, hnd2, hiff2, hvis2, hreach2⟩
    rw [heq1] at hr1 hiff1 hvis1
    rw [heq2] at hr2 hiff2 hvis2
    simp only at hr1 hiff1 hvis1 hr2 hiff2 hvis2
    have hval : (visitFn g (n :: ns) v r).val = (v2, r2) := by
      rw [visitFn_cons_not_mem g n ns v r hn, heq1]
      simp only
      rw [heq2]
    have hnv1 : n ∈ v1 := h1 (Finset.mem_insert_self n v)
    refine ⟨Δ1 ++ n :: Δ2, ?_, ?_, ?_, ?_, ?_⟩
    · rw [hval]
      simp only
      rw [hr2, hr1]
      simp
    · rw [List.nodup_append]
      refine ⟨hnd1, ?_, ?_⟩
      · rw [List.nodup_cons]
        exact ⟨fun hmem => ((hiff2 n).mp hmem).2 hnv1, hnd2⟩
      · intro x hx1 hx2
        rcases List.mem_cons.mp hx2 with hx2 | hx2
        · subst hx2
          exact ((hiff1 x).mp hx1).2 (Finset.mem_insert_self x v)
        · exact ((hiff2 x).mp hx2).2 ((hiff1 x).mp hx1).1
    · intro x
      rw [hval]
      simp only
      constructor
      · intro hx
        rcases List.mem_append.mp hx with hx | hx
        · have hh := (hiff1 x).mp hx
          exact ⟨h2 hh.1, fun hv => hh.2 (Finset.mem_insert_of_mem hv)⟩
        · rcases List.mem_cons.mp hx with hx | hx
          · subst hx
            exact ⟨h2 hnv1, hn⟩
          · have hh := (hiff2 x).mp hx
            exact ⟨hh.1, fun hv => hh.2 (h1 (Finset.mem_insert_of_mem hv))⟩
      · rintro ⟨hx2, hxv⟩
        by_cases hxv1 : x ∈ v1
        · by_cases hxi : x ∈ insert n v
          · rcases Finset.mem_insert.mp hxi with hxn | hxv0
            · subst hxn
              exact List.mem_append.mpr (Or.inr (List.mem_cons_self _ _))
            · exact absurd hxv0 hxv
          · exact List.mem_append.mpr (Or.inl ((hiff1 x).mpr ⟨hxv1, hxi⟩))
        · exact List.mem_append.mpr
            (Or.inr (List.mem_cons_of_mem _ ((hiff2 x).mpr ⟨hx2, hxv1⟩)))
    · intro x hx
      rw [hval]
      simp only
      rcases List.mem_cons.mp hx with hx | hx
      · subst hx
        exact h2 hnv1
      · exact hvis2 x hx
    · intro x hx
      rcases List.mem_append.mp hx with hx | hx
      · rcases hreach1 x hx with ⟨l, hl, hrt⟩
        refine ⟨n, List.mem_cons_self _ _, Relation.ReflTransGen.head ?_ hrt⟩
        exact hl
      · rcases List.mem_cons.mp hx with hx | hx
        · subst hx
          exact ⟨x, List.mem_cons_self _ _, Relation.ReflTransGen.refl⟩
        · rcases hreach2 x hx with ⟨l, hl, hrt⟩
          exact ⟨l, List.mem_cons_of_mem _ hl, hrt⟩

/-- Ordering property of the DFS on acyclic graphs: every node of the
newly appended block comes after each of its dependencies, unless that
dependency was already visited before the call. -/
lemma visit_order (g : List (String × List String)) (hacy : Acyclic g) :
    ∀ (ns : List String) (v : Finset String) (r : List String) (Δ : List String),
      (visitFn g ns v r).val.2 = r ++ Δ →
      ∀ x ∈ Δ, ∀ d ∈ depsOf g x, d ∈ v ∨ Before d x Δ := by
  intro ns v r
  induction ns, v, r using visitFn.induct g with
  | case1 v r =>
    intro Δ hΔ x hx d hd
    rw [visitFn_nil] at hΔ
    simp only at hΔ
    have hlen := congrArg List.length hΔ
    simp only [List.length_append] at hlen
    have : Δ.length = 0 := by omega
    rw [List.length_eq_zero.mp this] at hx
    simp at hx
  | case2 n ns v r hn p hp heq ih =>
    intro Δ hΔ
    rw [show (visitFn g (n :: ns) v r).val.2 = (visitFn g ns v r).val.2 from
      congrArg Prod.snd (visitFn_cons_mem g n ns v r hn)] at hΔ
    exact ih Δ hΔ
  | case3 n ns v r hn v1 r1 h1 heq1 v2 r2 h2 heq2 ih1 ih2 =>
    intro Δ hΔ x hx d hd
    obtain ⟨Δ1, hr1, hnd1, hiff1, hvis1, hreach1⟩ := visit_spec g (depsOf g n) (insert n v) r
    obtain ⟨Δ2, hr2, hnd2, hiff2, hvis2, hreach2⟩ := visit_spec g ns v1 (r1 ++ [n])
    have hval : (visitFn g (n :: ns) v r).val = (v2, r2) := by
      rw [visitFn_cons_not_mem g n ns v r hn, heq1]
      simp only
      rw [heq2]
    have hr1v : r1 = r ++ Δ1 := by rw [heq1] at hr1; exact hr1
    have hr2v : r2 = (r1 ++ [n]) ++ Δ2 := by rw [heq2] at hr2; exact hr2
    have hiff1v : ∀ y, y ∈ Δ1 ↔ (y ∈ v1 ∧ y ∉ insert n v) := by
      intro y
      have := hiff1 y
      rw [heq1] at this
      exact this
    have hvis1v : ∀ y ∈ depsOf g n, y ∈ v1 := by
      intro y hy
      have := hvis1 y hy
      rw [heq1] at this
      exact this
    have hΔeq : Δ = Δ1 ++ n :: Δ2 := by
      refine List.append_cancel_left (?_ : r ++ _ = r ++ _)
      rw [← hΔ, hval]
      simp only
      rw [hr2v, hr1v]
      simp
    rw [hΔeq] at hx ⊢
    rcases List.mem_append.mp hx with hx1 | hxc
    · rcases ih1 Δ1 hr1 x hx1 d hd with hdi | hdb
      · rcases Finset.mem_insert.mp hdi with hdn | hdv
        · exfalso
          rcases hreach1 x hx1 with ⟨l, hl, hrt⟩
          have htg : Relation.TransGen (EdgeR g) n x := Relation.TransGen.head' hl hrt
          have hxe : EdgeR g x n := by rw [← hdn]; exact hd
          exact hacy n (htg.tail hxe)
        · exact Or.inl hdv
      · exact Or.inr (Before_append_left _ hdb)
    · rcases List.mem_cons.mp hxc with hxn | hx2
      · subst hxn
        have hdv1 : d ∈ v1 := hvis1v d hd
        by_cases hdi : d ∈ insert x v
        · rcases Finset.mem_insert.mp hdi with hdn | hdv
          · exfalso
            have hxe : EdgeR g x x := by rw [← hdn] at hd; rw [hdn] at hd; exact hd
            exact hacy x (Relation.TransGen.single hxe)
          · exact Or.inl hdv
        · have hdΔ1 : d ∈ Δ1 := (hiff1v d).mpr ⟨hdv1, hdi⟩
          exact Or.inr (Before_parts hdΔ1 (List.mem_cons_self _ _))
      · rcases ih2 Δ2 hr2 x hx2 d hd with hdv1 | hdb
        · by_cases hdi : d ∈ insert n v
          · rcases Finset.mem_insert.mp hdi with hdn | hdv
            · subst hdn
              refine Or.inr ?_
              have hsplit : Δ1 ++ d :: Δ2 = (Δ1 ++ [d]) ++ Δ2 := by simp
              rw [hsplit]
              exact Before_parts (by simp) hx2
            · exact Or.inl hdv
          · have hdΔ1 : d ∈ Δ1 := (hiff1v d).mpr ⟨hdv1, hdi⟩
            exact Or.inr (Before_parts hdΔ1 (List.mem_cons_of_mem _ hx2))
        · refine Or.inr ?_
          have hsplit : Δ1 ++ n :: Δ2 = (Δ1 ++ [n]) ++ Δ2 := by simp
          rw [hsplit]
          exact Before_append_right _ hdb

/-- The keys of the component registry, as a finset (termination measure). -/
def regKeysFinset (registry : List (String × BuildComponent)) : Finset String :=
  (registry.map Prod.fst).toFinset

lemma keysG_append_toFinset (g : List (String × List String)) (n : String) (ds : List String) :
    (keysG (g ++ [(n, ds)])).toFinset = insert n (keysG g).toFinset := by
  simp [keysG, Finset.union_comm]
  rfl

/-- `_resolve_dependency_graph`'s recursive `add_dependencies`, embedded
with an explicit worklist `ns` and graph accumulator `g`: a node not yet
in the graph gets an entry holding its registry `build_inputs` (or `[]`
when it is not registered), and its inputs are then resolved depth-first.
The returned subtype records that the key set only grows. -/
def addDepsFn (registry : List (String × BuildComponent)) :
    (ns : List String) → (g : List (String × List String)) →
    {g2 : List (String × List String) // ∀ k, k ∈ keysG g → k ∈ keysG g2}
  | [], g => ⟨g, fun _ hk => hk⟩
  | n :: ns, g =>
    if hn : n ∈ keysG g then
      let ⟨g2, h2⟩ := addDepsFn registry ns g
      ⟨g2, h2⟩
    else
      match hreg : registry.lookup n with
      | some comp =>
        let ⟨g1, hkeys1⟩ := addDepsFn registry comp.build_inputs (g ++ [(n, comp.build_inputs)])
        let ⟨g2, hkeys2⟩ := addDepsFn registry ns g1
        ⟨g2, fun k hk => hkeys2 k (hkeys1 k (by
          simp only [keysG, List.map_append, List.mem_append]
          exact Or.inl hk))⟩
      | none =>
        let ⟨g2, h2⟩ := addDepsFn registry ns (g ++ [(n, [])])
        ⟨g2, fun k hk => h2 k (by
          simp only [keysG, List.map_append, List.mem_append]
          exact Or.inl hk)⟩
  termination_by ns g => ((regKeysFinset registry \ (keysG g).toFinset).card, ns.length)
  decreasing_by
  · exact Prod.Lex.right _ (Nat.lt_succ_self _)
  · apply Prod.Lex.left
    apply Finset.card_lt_card
    rw [keysG_append_toFinset]
    have hnreg : n ∈ regKeysFinset registry := by
      unfold regKeysFinset
      rw [List.mem_toFinset]
      exact lookup_some_imp_mem _ _ _ hreg
    constructor
    · exact Finset.sdiff_subset_sdiff (le_refl _) (Finset.subset_insert n _)
    · intro hsub
      have hnm : n ∈ regKeysFinset registry \ (keysG g).toFinset :=
        Finset.mem_sdiff.mpr ⟨hnreg, by rw [List.mem_toFinset] at *; exact hn⟩
      have := hsub hnm
      rw [Finset.mem_sdiff] at this
      exact this.2 (Finset.mem_insert_self n _)
  · apply Prod.Lex.left
    have hnreg : n ∈ regKeysFinset registry := by
      unfold regKeysFinset
      rw [List.mem_toFinset]
      exact lookup_some_imp_mem _ _ _ hreg
    calc (regKeysFinset registry \ (keysG g1).toFinset).card
        ≤ (regKeysFinset registry \ (keysG (g ++ [(n, comp.build_inputs)])).toFinset).card := by
          apply Finset.card_le_card
          apply Finset.sdiff_subset_sdiff (le_refl _)
          intro k hk
          rw [List.mem_toFinset] at hk ⊢
          exact hkeys1 k hk
      _ < (regKeysFinset registry \ (keysG g).toFinset).card := by
          apply Finset.card_lt_card
          rw [keysG_append_toFinset]
          constructor
          · exact Finset.sdiff_subset_sdiff (le_refl _) (Finset.subset_insert n _)
          · intro hsub
            have hnm : n ∈ regKeysFinset registry \ (keysG g).toFinset :=
              Finset.mem_sdiff.mpr ⟨hnreg, by rw [List.mem_toFinset]; exact hn⟩
            have := hsub hnm
            rw [Finset.mem_sdiff] at this
            exact this.2 (Finset.mem_insert_self n _)
  · have hnreg : n ∉ regKeysFinset registry := by
      unfold regKeysFinset
      rw [List.mem_toFinset]
      intro hmem
      have := mem_keys_lookup_isSome registry n hmem
      rw [hreg] at this
      exact absurd this (by simp)
    have hcar : regKeysFinset registry \ (keysG (g ++ [(n, [])])).toFinset =
        regKeysFinset registry \ (keysG g).toFinset := by
      rw [keysG_append_toFinset]
      ext x
      simp only [Finset.mem_sdiff, Finset.mem_insert]
      constructor
      · rintro ⟨ha, hb⟩
        exact ⟨ha, fun h => hb (Or.inr h)⟩
      · rintro ⟨ha, hb⟩
        refine ⟨ha, fun h => ?_⟩
        rcases h with h | h
        · exact hnreg (h ▸ ha)
        · exact hb h
    rw [hcar]
    exact Prod.Lex.right _ (Nat.lt_succ_self _)

/-- `_resolve_dependency_graph` (reproducible_ai_builder.py lines 333-350). -/
def _resolve_dependency_graph (registry : List (String × BuildComponent))
    (target_components : List String) : List (String × List String) :=
  (addDepsFn registry target_components []).val

lemma addDepsFn_nil (registry : List (String × BuildComponent)) (g : List (String × List String)) :
    (addDepsFn registry [] g).val = g := by
  simp [addDepsFn]

lemma addDepsFn_cons_mem (registry : List (String × BuildComponent)) (n : String)
    (ns : List String) (g : List (String × List String)) (hn : n ∈ keysG g) :
    (addDepsFn registry (n :: ns) g).val = (addDepsFn registry ns g).val := by
  rw [addDepsFn]
  rw [dif_pos hn]

lemma addDepsFn_cons_some (registry : List (String × BuildComponent)) (n : String)
    (ns : List String) (g : List (String × List String)) (comp : BuildComponent)
    (hn : n ∉ keysG g) (hreg : registry.lookup n = some comp) :
    (addDepsFn registry (n :: ns) g).val =
      (addDepsFn registry ns
        (addDepsFn registry comp.build_inputs (g ++ [(n, comp.build_inputs)])).val).val := by
  rw [addDepsFn]
  rw [dif_neg hn]
  split
  · rename_i comp2 hreg2
    rw [hreg] at hreg2
    cases Option.some.inj hreg2
    rfl
  · rename_i hreg2
    rw [hreg] at hreg2
    exact absurd hreg2 (by simp)

lemma addDepsFn_cons_none (registry : List (String × BuildComponent)) (n : String)
    (ns : List String) (g : List (String × List String))
    (hn : n ∉ keysG g) (hreg : registry.lookup n = none) :
    (addDepsFn registry (n :: ns) g).val = (addDepsFn registry ns (g ++ [(n, [])])).val := by
  rw [addDepsFn]
  rw [dif_neg hn]
  split
  · rename_i comp2 hreg2
    rw [hreg] at hreg2
    exact absurd hreg2 (by simp)
  · rfl

lemma keysG_append_single (g : List (String × List String)) (n : String) (ds : List String) :
    keysG (g ++ [(n, ds)]) = keysG g ++ [n] := by
  simp [keysG]

/-- The key list of the resolved graph never acquires a duplicate: a node
is only added when absent. -/
lemma addDeps_keys_nodup (registry : List (String × BuildComponent)) :
    ∀ (ns : List String) (g : List (String × List String)),
      (keysG g).Nodup → (keysG (addDepsFn registry ns g).val).Nodup := by
  intro ns g
  induction ns, g using addDepsFn.induct registry with
  | case1 g =>
    intro h
    rw [addDepsFn_nil]
    exact h
  | case2 n ns g hn g2 h2 heq ih =>
    intro h
    rw [addDepsFn_cons_mem registry n ns g hn]
    exact ih h
  | case3 n ns g hn comp hreg g1 hkeys1 heq1 g2 h2 heq2 ih1 ih2 =>
    intro h
    rw [addDepsFn_cons_some registry n ns g comp hn hreg]
    rw [heq1]
    simp only
    have hg1 : (keysG g1).Nodup := by
      have := ih1 (by
        rw [keysG_append_single]
        simp [List.nodup_append, h, hn])
      rw [heq1] at this
      exact this
    have := ih2 hg1
    rw [heq2] at this
    rw [heq2]
    exact this
  | case4 n ns g hn hreg g2 h2 heq ih =>
    intro h
    rw [addDepsFn_cons_none registry n ns g hn hreg]
    apply ih
    rw [keysG_append_single]
    simp [List.nodup_append, h, hn]

/-- Every worklist node ends up as a key of the resolved graph. -/
lemma addDeps_processed (registry : List (String × BuildComponent)) :
    ∀ (ns : List String) (g : List (String × List String)),
      ∀ x ∈ ns, x ∈ keysG (addDepsFn registry ns g).val := by
  intro ns g
  induction ns, g using addDepsFn.induct registry with
  | case1 g =>
    intro x hx
    simp at hx
  | case2 n ns g hn g2 h2 heq ih =>
    intro x hx
    rw [addDepsFn_cons_mem registry n ns g hn]
    rcases List.mem_cons.mp hx with hx | hx
    · subst hx
      exact (addDepsFn registry ns g).property x hn
    · exact ih x hx
  | case3 n ns g hn comp hreg g1 hkeys1 heq1 g2 h2 heq2 ih1 ih2 =>
    intro x hx
    rw [addDepsFn_cons_some registry n ns g comp hn hreg, heq1]
    simp only
    rw [heq2]
    simp only
    rcases List.mem_cons.mp hx with hx | hx
    · subst hx
      refine h2 x (hkeys1 x ?_)
      rw [keysG_append_single]
      simp
    · have := ih2 x hx
      rw [heq2] at this
      exact this
  | case4 n ns g hn hreg g2 h2 heq ih =>
    intro x hx
    rw [addDepsFn_cons_none registry n ns g hn hreg]
    rcases List.mem_cons.mp hx with hx | hx
    · subst hx
      refine (addDepsFn registry ns (g ++ [(x, [])])).property x ?_
      rw [keysG_append_single]
      simp
    · exact ih x hx

/-- Every entry of the resolved graph that was added by the resolution
has all its listed dependencies among the final keys. -/
lemma addDeps_new_entries (registry : List (String × BuildComponent)) :
    ∀ (ns : List String) (g : List (String × List String)),
      ∀ p ∈ (addDepsFn registry ns g).val,
        p ∈ g ∨ ∀ d ∈ p.2, d ∈ keysG (addDepsFn registry ns g).val := by
  intro ns g
  induction ns, g using addDepsFn.induct registry with
  | case1 g =>
    intro p hp
    rw [addDepsFn_nil] at hp
    exact Or.inl hp
  | case2 n ns g hn g2 h2 heq ih =>
    intro p hp
    rw [addDepsFn_cons_mem registry n ns g hn] at hp ⊢
    exact ih p hp
  | case3 n ns g hn comp hreg g1 hkeys1 heq1 g2 h2 heq2 ih1 ih2 =>
    intro p hp
    rw [addDepsFn_cons_some registry n ns g comp hn hreg, heq1] at hp ⊢
    simp only at hp ⊢
    rw [heq2] at hp ⊢
    simp only at hp ⊢
    have hmono2 : ∀ k ∈ keysG g1, k ∈ keysG g2 := h2
    rcases (by rw [heq2] at ih2; simp only at ih2; exact ih2 p hp :
        p ∈ g1 ∨ ∀ d ∈ p.2, d ∈ keysG g2) with hp1 | hdeps
    · rcases (by rw [heq1] at ih1; simp only at ih1; exact ih1 p hp1 :
          p ∈ g ++ [(n, comp.build_inputs)] ∨ ∀ d ∈ p.2, d ∈ keysG g1) with hp0 | hdeps1
      · rcases List.mem_append.mp hp0 with hp0 | hp0
        · exact Or.inl hp0
        · simp only [List.mem_singleton] at hp0
          subst hp0
          refine Or.inr ?_
          intro d hd
          refine hmono2 d ?_
          have := addDeps_processed registry comp.build_inputs (g ++ [(n, comp.build_inputs)]) d hd
          rw [heq1] at this
          exact this
      · exact Or.inr (fun d hd => hmono2 d (hdeps1 d hd))
    · exact Or.inr hdeps
  | case4 n ns g hn hreg g2 h2 heq ih =>
    intro p hp
    rw [addDepsFn_cons_none registry n ns g hn hreg] at hp ⊢
    rcases ih p hp with hp0 | hdeps
    · rcases List.mem_append.mp hp0 with hp0 | hp0
      · exact Or.inl hp0
      · simp only [List.mem_singleton] at hp0
        subst hp0
        refine Or.inr ?_
        intro d hd
        simp at hd
    · exact Or.inr hdeps

lemma nodup_keys_lookup (g : List (String × List String)) (hnd : (keysG g).Nodup)
    (k : String) (ds : List String) (hmem : (k, ds) ∈ g) : g.lookup k = some ds := by
  induction g with
  | nil => simp at hmem
  | cons p rest ih =>
    simp only [keysG, List.map_cons, List.nodup_cons] at hnd
    rcases List.mem_cons.mp hmem with hmem | hmem
    · rw [← hmem]
      rw [List.lookup]
      simp
    · have hkp : k ≠ p.1 := by
        intro hke
        apply hnd.1
        rw [← hke]
        exact List.mem_map_of_mem Prod.fst hmem
      rw [List.lookup]
      have : (k == p.1) = false := beq_eq_false_iff_ne.mpr hkp
      simp only [this, Bool.false_eq_true, if_false]
      exact ih hnd.2 hmem

lemma reach_mem_keys (g : List (String × List String))
    (hclosed : ∀ p ∈ g, ∀ d ∈ p.2, d ∈ keysG g) :
    ∀ (l x : String), l ∈ keysG g → Relation.ReflTransGen (EdgeR g) l x → x ∈ keysG g := by
  intro l x hl hrt
  induction hrt with
  | refl => exact hl
  | @tail b c hab hbc ih =>
    unfold EdgeR depsOf at hbc
    cases hlk : g.lookup b with
    | none => rw [hlk] at hbc; simp at hbc
    | some ds =>
      rw [hlk] at hbc
      simp only [Option.getD_some] at hbc
      exact hclosed (b, ds) (lookup_some_mem g b ds hlk) c hbc

/-- C2.  For every dependency graph produced by
`_resolve_dependency_graph` (from any component registry and target list),
`_topological_sort` terminates and returns a permutation of the graph's
keys — each key exactly once, with no error and no cycle detection, also
on cyclic graphs — and when the graph is acyclic every node appears after
all of its dependencies. -/
theorem topological_sort_of_resolved (registry : List (String × BuildComponent))
    (targets : List String) :
    ((_topological_sort (_resolve_dependency_graph registry targets)).Perm
      (keysG (_resolve_dependency_graph registry targets))) ∧
    (Acyclic (_resolve_dependency_graph registry targets) →
      ∀ k ds, (k, ds) ∈ _resolve_dependency_graph registry targets →
        ∀ d ∈ ds,
          (_topological_sort (_resolve_dependency_graph registry targets)).indexOf d <
            (_topological_sort (_resolve_dependency_graph registry targets)).indexOf k) := by
  have hnd : (keysG (_resolve_dependency_graph registry targets)).Nodup :=
    addDeps_keys_nodup registry targets [] (by simp [keysG])
  have hclosed : ∀ p ∈ _resolve_dependency_graph registry targets,
      ∀ d ∈ p.2, d ∈ keysG (_resolve_dependency_graph registry targets) := by
    intro p hp d hd
    rcases addDeps_new_entries registry targets [] p hp with hp0 | hdeps
    · simp at hp0
    · exact hdeps d hd
  obtain ⟨Δ, hr, hndΔ, hiff, hvis, hreach⟩ :=
    visit_spec (_resolve_dependency_graph registry targets)
      (keysG (_resolve_dependency_graph registry targets)) ∅ []
  have hres : _topological_sort (_resolve_dependency_graph registry targets) = Δ := by
    unfold _topological_sort
    rw [hr]
    simp
  have hmemiff : ∀ x, x ∈ Δ ↔ x ∈ keysG (_resolve_dependency_graph registry targets) := by
    intro x
    constructor
    · intro hx
      rcases hreach x hx with ⟨l, hl, hrt⟩
      exact reach_mem_keys _ hclosed l x hl hrt
    · intro hx
      exact (hiff x).mpr ⟨hvis x hx, by simp⟩
  constructor
  · rw [hres]
    exact (List.perm_ext_iff_of_nodup hndΔ hnd).mpr hmemiff
  · intro hacy k ds hmem d hd
    have hlk : (_resolve_dependency_graph registry targets).lookup k = some ds :=
      nodup_keys_lookup _ hnd k ds hmem
    have hdk : d ∈ depsOf (_resolve_dependency_graph registry targets) k := by
      unfold depsOf
      rw [hlk]
      exact hd
    have hkΔ : k ∈ Δ := (hmemiff k).mpr (List.mem_map_of_mem Prod.fst hmem)
    rcases visit_order _ hacy _ ∅ [] Δ hr k hkΔ d hdk with hdv | hdb
    · simp at hdv
    · rw [hres]
      exact Before_indexOf hdb hndΔ

/-- A concrete one-component registry for the witness: component `"a"`
with the single build input `"b"`. -/
def witnessRegistry : List (String × BuildComponent) :=
  [("a", ⟨"a", "1.0.0", "deadbeef", ["b"], [], "generic", [], []⟩)]

lemma witness_resolve_eq :
    _resolve_dependency_graph witnessRegistry ["a"] = [("a", ["b"]), ("b", [])] := by
  unfold _resolve_dependency_graph
  rw [addDepsFn_cons_some witnessRegistry "a" [] []
    ⟨"a", "1.0.0", "deadbeef", ["b"], [], "generic", [], []⟩ (by simp [keysG]) rfl]
  rw [addDepsFn_nil]
  simp only [List.nil_append]
  rw [addDepsFn_cons_none witnessRegistry "b" [] [("a", ["b"])] (by simp [keysG]) rfl]
  rw [addDepsFn_nil]
  rfl

lemma witness_edge_characterization (a b : String)
    (h : EdgeR [("a", ["b"]), ("b", [])] a b) : a = "a" ∧ b = "b" := by
  unfold EdgeR depsOf at h
  by_cases ha : a = "a"
  · subst ha
    simp [List.lookup] at h
    exact ⟨rfl, h⟩
  · by_cases hb : a = "b"
    · subst hb
      simp [List.lookup] at h
    · have h1 : (a == "a") = false := beq_eq_false_iff_ne.mpr ha
      have h2 : (a == "b") = false := beq_eq_false_iff_ne.mpr hb
      simp [List.lookup, h1, h2] at h

lemma witness_acyclic : Acyclic [("a", ["b"]), ("b", [])] := by
  intro n htg
  cases htg with
  | single h =>
    rcases witness_edge_characterization n n h with ⟨h1, h2⟩
    rw [h1] at h2
    exact absurd h2 (by decide)
  | tail htg2 h =>
    rename_i c
    rcases witness_edge_characterization c n h with ⟨hc, hn⟩
    subst hc
    subst hn
    cases htg2 with
    | single h2 =>
      rcases witness_edge_characterization "b" "a" h2 with ⟨hb, _⟩
      exact absurd hb (by decide)
    | tail _ h2 =>
      rename_i d _
      rcases witness_edge_characterization d "a" h2 with ⟨_, ha⟩
      exact absurd ha (by decide)

/-- Closed witness for `topological_sort_of_resolved`: a concrete acyclic
one-dependency registry, discharging the acyclicity and membership
hypotheses. -/
theorem topological_sort_of_resolved_witness :
    ((_topological_sort (_resolve_dependency_graph witnessRegistry ["a"])).Perm
      (keysG (_resolve_dependency_graph witnessRegistry ["a"]))) ∧
    (_topological_sort (_resolve_dependency_graph witnessRegistry ["a"])).indexOf "b" <
      (_topological_sort (_resolve_dependency_graph witnessRegistry ["a"])).indexOf "a" := by
  have h := topological_sort_of_resolved witnessRegistry ["a"]
  refine ⟨h.1, ?_⟩
  refine h.2 ?_ "a" ["b"] ?_ "b" ?_
  · rw [witness_resolve_eq]
    exact witness_acyclic
  · rw [witness_resolve_eq]
    simp
  · simp


end CogArch
